import Mathlib

/-
Verification of the go-cmdline command-line parsing library.

The Go sources are shallowly embedded below.  Go strings are modeled as
Lean `String` values (sequences of runes); all inputs exercised by the
development are ASCII, where Go's byte indexing and Lean's character
indexing coincide.  Go `panic` is modeled by an error value threaded
through `Except` (for compilation) or by a distinguished constructor of
the process-result type (for `Process`).  Go maps that are only ever
iterated after sorting, or whose iteration order is irrelevant, are
modeled as insertion-ordered association lists.
-/

/-! ## Go string primitives (package strings, unicode/utf8) -/

/-- Index of the first occurrence of `sub` in the character list, starting
the count at `i`; `-1` when absent (strings.Index worker). -/
def goIndexFromChars (sub : List Char) : List Char → Nat → Int
  | [], i => if sub.isPrefixOf ([] : List Char) then (i : Int) else -1
  | c :: t, i =>
    if sub.isPrefixOf (c :: t) then (i : Int)
    else goIndexFromChars sub t (i + 1)

/-- strings.Index: index of the first occurrence of `sub` in `s`, or -1. -/
def goIndex (s sub : String) : Int :=
  goIndexFromChars sub.data s.data 0

/-- strings.Contains. -/
def goContains (s sub : String) : Bool :=
  goIndex s sub ≥ 0

/-- Worker for strings.LastIndex. -/
def goLastIndexAux (sub : List Char) : List Char → Nat → Int → Int
  | [], _, best => best
  | c :: t, i, best =>
    goLastIndexAux sub t (i + 1) (if sub.isPrefixOf (c :: t) then (i : Int) else best)

/-- strings.LastIndex: index of the last occurrence of `sub` in `s`, or -1. -/
def goLastIndex (s sub : String) : Int :=
  if sub = "" then (s.length : Int) else goLastIndexAux sub.data s.data 0 (-1)

/-- Worker for strings.IndexAny. -/
def goIndexAnyChars (chars : List Char) : List Char → Nat → Int
  | [], _ => -1
  | c :: t, i => if chars.contains c then (i : Int) else goIndexAnyChars chars t (i + 1)

/-- strings.IndexAny: index of the first character of `s` present in `chars`. -/
def goIndexAny (s chars : String) : Int :=
  goIndexAnyChars chars.data s.data 0

/-- Kernel-computable forms of the Go string operations (Lean's own
String.take/drop/startsWith/... are Substring-based and do not reduce
inside the kernel, which concrete witnesses need). -/
def goStrDrop (s : String) (n : Nat) : String := String.mk (s.data.drop n)

def goStrTake (s : String) (n : Nat) : String := String.mk (s.data.take n)

def goStrDropRight (s : String) (n : Nat) : String :=
  String.mk (s.data.take (s.data.length - n))

/-- strings.HasPrefix. -/
def goHasPrefix (s pre : String) : Bool := pre.data.isPrefixOf s.data

/-- strings.HasSuffix. -/
def goHasSuffix (s suf : String) : Bool := suf.data.isSuffixOf s.data

/-- strings.ToLower (ASCII; all inputs of this development are ASCII). -/
def goToLower (s : String) : String := String.mk (s.data.map Char.toLower)

/-- strings.TrimSpace. -/
def goTrimSpace (s : String) : String :=
  String.mk (((s.data.dropWhile Char.isWhitespace).reverse.dropWhile
    Char.isWhitespace).reverse)

/-- First occurrence of the pattern `sep` in `s`. -/
def goIndexOfList (sep s : List Char) : Option Nat :=
  match goIndexFromChars sep s 0 with
  | Int.ofNat i => some i
  | _ => none

/-- Worker for strings.Split: each step removes at least one character,
so fuel `s.length + 1` always suffices. -/
def goSplitAux (sep : List Char) : Nat → List Char → List (List Char)
  | 0, s => [s]
  | fuel + 1, s =>
    match goIndexOfList sep s with
    | none => [s]
    | some i => s.take i :: goSplitAux sep fuel (s.drop (i + sep.length))

/-- strings.Split with a non-empty separator. -/
def goSplit (s sep : String) : List String :=
  (goSplitAux sep.data (s.length + 1) s.data).map String.mk

/-- strings.Join worker. -/
def goIntercalate (sep : String) : List String → String
  | [] => ""
  | [x] => x
  | x :: y :: rest => x ++ sep ++ goIntercalate sep (y :: rest)

/-- Go byte-wise string comparison a < b (on the ASCII strings of this
development it coincides with rune order). -/
def goStrLess : List Char → List Char → Bool
  | [], [] => false
  | [], _ :: _ => true
  | _ :: _, [] => false
  | a :: as, b :: bs =>
    if a < b then true
    else if b < a then false
    else goStrLess as bs

/-- Go slice expression s[a:b] (character positions; ASCII inputs). -/
def goSlice (s : String) (a b : Nat) : String :=
  String.mk ((s.data.drop a).take (b - a))

/-- strings.TrimPrefix. -/
def goTrimPrefix (s pre : String) : String :=
  if goHasPrefix s pre then goStrDrop s pre.length else s

/-- strings.Repeat with a non-negative count. -/
def goRepeat (s : String) (n : Nat) : String :=
  String.join (List.replicate n s)

/-- indexOf from arg-spec.go: strings.Index on the suffix starting at `pos`,
re-based to an absolute position when found. -/
def indexOf (str : String) (substr : String) (pos : Nat) : Int :=
  let index := goIndex (goStrDrop str pos) substr
  if index ≥ 0 then index + (pos : Int) else index

/-- Insert a string into a sorted list (ascending, Go byte order; on the
ASCII strings of this development Lean's character order coincides). -/
def insertSorted (x : String) : List String → List String
  | [] => [x]
  | y :: t => if goStrLess x.data y.data then x :: y :: t else y :: insertSorted x t

/-- sort.Strings: ascending lexicographic sort. -/
def goSortStrings (l : List String) : List String :=
  l.foldr insertSorted []

/-- fmt "%s" rendering of a Go []string value, e.g. "[-a -b]". -/
def goSliceFmt (l : List String) : String :=
  "[" ++ goIntercalate " " l ++ "]"

/-! ## utils.go token-character helpers (also mirrors simpleutils) -/

def isTokenCharFirst (ch : Char) : Bool :=
  (ch ≥ 'a' && ch ≤ 'z') || (ch ≥ 'A' && ch ≤ 'Z') || ch = '_'

def isTokenCharNext (ch : Char) : Bool :=
  (ch ≥ 'a' && ch ≤ 'z') || (ch ≥ 'A' && ch ≤ 'Z') || (ch ≥ '0' && ch ≤ '9') || ch = '_'

/-- utils.go isTokenName / simpleutils.IsTokenName. -/
def isTokenName (s : String) : Bool :=
  match s.data with
  | [] => false
  | c :: t => isTokenCharFirst c && t.all isTokenCharNext

/-- Modelled from the spec: simpleutils.IsTokenNameWithMiddleChars (the
simpleutils module is an external collaborator, not under src/).  Per the
spec a key is "a dash/double-dash-prefixed token" or "a bare token": a
token name in which the extra characters (here "-") may also appear at
non-first positions. -/
def isTokenNameWithMiddleChars (s : String) (middle : List Char) : Bool :=
  match s.data with
  | [] => false
  | c :: t => isTokenCharFirst c && t.all (fun ch => isTokenCharNext ch || middle.contains ch)

/-- utils.go whichSuffix / simpleutils.WhichSuffix: the first suffix of the
candidate list that terminates `s`. -/
def whichSuffix (s : String) (suffixes : List String) : Option String :=
  suffixes.find? (fun suf => goHasSuffix s suf)

/-! ## Errors and values -/

/-- Go error values visible in this development: the library's recoverable
CommandLineError, and plain errors (fmt.Errorf results, also used as panic
payloads). -/
inductive GoErr where
  | cmdLineErr (reason : String)
  | goError (msg : String)
deriving DecidableEq, Repr

def basePanic : String := "command line template syntax error! expected "

/-- parseError from arg-spec.go. -/
def parseError (expected : String) (orgSpec : String) (specRemaining : String) (parsePos : Nat) : GoErr :=
  if specRemaining.length ≤ parsePos || orgSpec = goStrDrop specRemaining parsePos then
    .goError (basePanic ++ expected ++ " in \"" ++ orgSpec ++ "\"")
  else
    .goError (basePanic ++ expected ++ " at \"" ++ goStrDrop specRemaining parsePos ++ "\" of \"" ++ orgSpec ++ "\"")

/-- Runtime typed values (Go `any`).  float64 values are represented by
their source text: IEEE-754 arithmetic is outside this shallow embedding
and no claim depends on it.  The list constructors mirror the typed Go
slices built by NewList/AppendList ([]bool, []int, []float64, []string;
the path type shares []string). -/
inductive GoVal where
  | vBool (b : Bool)
  | vInt (i : Int)
  | vFloat (text : String)
  | vStr (s : String)
  | vBoolList (elems : List Bool)
  | vIntList (elems : List Int)
  | vFloatList (elems : List String)
  | vStrList (elems : List String)
deriving DecidableEq, Repr

/-! ## option-types.go: the default ValueType provider -/

/-- strconv.ParseBool. -/
def goParseBool (s : String) : Except GoErr Bool :=
  if s = "1" || s = "t" || s = "T" || s = "true" || s = "TRUE" || s = "True" then .ok true
  else if s = "0" || s = "f" || s = "F" || s = "false" || s = "FALSE" || s = "False" then .ok false
  else .error (.goError ("strconv.ParseBool: parsing \"" ++ s ++ "\": invalid syntax"))

def digitsToNat : List Char → Option Nat → Option Nat
  | [], acc => acc
  | c :: t, acc =>
    if c.isDigit then
      digitsToNat t (some ((acc.getD 0) * 10 + (c.toNat - '0'.toNat)))
    else none

/-- strconv.Atoi (64-bit overflow is out of scope for every claim; the
value is kept as an unbounded integer). -/
def goAtoi (s : String) : Except GoErr Int :=
  let failMsg : GoErr := .goError ("strconv.Atoi: parsing \"" ++ s ++ "\": invalid syntax")
  match s.data with
  | '+' :: rest =>
    match digitsToNat rest none with
    | some n => .ok (n : Int)
    | none => .error failMsg
  | '-' :: rest =>
    match digitsToNat rest none with
    | some n => .ok (-(n : Int))
    | none => .error failMsg
  | rest =>
    match digitsToNat rest none with
    | some n => .ok (n : Int)
    | none => .error failMsg

/-- strconv.ParseFloat, approximated: recognizes an optional sign followed
by digits with an optional fractional part; the accepted value is kept as
its source text (see `GoVal.vFloat`).  No claim exercises float64 values. -/
def goParseFloatOk (s : String) : Bool :=
  let unsigned :=
    match s.data with
    | '+' :: rest => rest
    | '-' :: rest => rest
    | rest => rest
  match unsigned with
  | [] => false
  | _ =>
    match List.splitOn '.' unsigned with
    | [intPart] => intPart.all Char.isDigit && !intPart.isEmpty
    | [intPart, fracPart] =>
      (intPart ++ fracPart).all Char.isDigit && (!intPart.isEmpty || !fracPart.isEmpty)
    | _ => false

/-- option-types.go StringToAttributes of the default provider: type index
and default value, or the panic payload for an unknown type name. -/
def stringToAttributes (typeName : String) (spec : String) : Except GoErr (Nat × GoVal) :=
  match typeName with
  | "bool" => .ok (0, .vBool false)
  | "int" => .ok (1, .vInt 0)
  | "float64" => .ok (2, .vFloat "0")
  | "string" => .ok (3, .vStr "")
  | "path" => .ok (4, .vStr "")
  | _ => .error (.goError (basePanic ++ "valid arg type " ++ typeName ++ " in " ++ spec))

/-- option-types.go MakeValue of the default provider.  The path type's
filepath.Abs canonicalization depends on the process working directory,
which is outside the embedding; the input string is kept as is (no claim
exercises the path type). -/
def makeValue (typeIndex : Nat) (inputValue : String) : Except GoErr GoVal :=
  match typeIndex with
  | 0 => do
    let b ← goParseBool inputValue
    pure (.vBool b)
  | 1 => do
    let i ← goAtoi inputValue
    pure (.vInt i)
  | 2 =>
    if goParseFloatOk inputValue then pure (.vFloat inputValue)
    else .error (.goError ("strconv.ParseFloat: parsing \"" ++ inputValue ++ "\": invalid syntax"))
  | 3 => pure (.vStr inputValue)
  | 4 => pure (.vStr inputValue)
  | _ => .error (.goError "invalid arg type index")

/-- option-types.go NewList of the default provider. -/
def newList (typeIndex : Nat) : Except GoErr GoVal :=
  match typeIndex with
  | 0 => .ok (.vBoolList [])
  | 1 => .ok (.vIntList [])
  | 2 => .ok (.vFloatList [])
  | 3 => .ok (.vStrList [])
  | 4 => .ok (.vStrList [])
  | _ => .error (.goError "invalid arg type index")

/-- option-types.go AppendList of the default provider.  A mismatch between
the list value and the type index corresponds to a Go type-assertion panic
and cannot occur on the paths of this development. -/
def appendList (typeIndex : Nat) (list : GoVal) (inputValue : String) : Except GoErr GoVal := do
  let value ← makeValue typeIndex inputValue
  match list, value with
  | .vBoolList elems, .vBool b => pure (.vBoolList (elems ++ [b]))
  | .vIntList elems, .vInt i => pure (.vIntList (elems ++ [i]))
  | .vFloatList elems, .vFloat f => pure (.vFloatList (elems ++ [f]))
  | .vStrList elems, .vStr s => pure (.vStrList (elems ++ [s]))
  | _, _ => .error (.goError "interface conversion failure")

/-! ## arg-spec.go: ArgSpec data model and the Template Compiler -/

/-- arg-spec.go argValueSpec. -/
structure ArgValueSpec where
  argIndex : Nat
  optionName : String
  optional : Bool
  multi : Bool
  defaultValue : GoVal
deriving DecidableEq, Repr

/-- arg-spec.go argSpec.  The Go zero rune (delimiter unset) is modeled by
`none`. -/
structure ArgSpec where
  key : String
  unnamed : Bool
  optional : Bool
  valuesDelim : Option Char
  valueDelim : Option Char
  valueSpecs : List ArgValueSpec
  multiValue : Bool
  helpText : String
deriving DecidableEq, Repr

/-- Character of `s` at index `i`; indexing past the end is a Go runtime
panic. -/
def goCharAt (s : String) (i : Nat) : Except GoErr Char :=
  match s.data.get? i with
  | some c => .ok c
  | none => .error (.goError "runtime error: index out of range")

/-- One iteration plus the tail of newArgSpec's value-spec loop
(`for parsePos < len(spec)` in arg-spec.go).  `parsePos` strictly
increases every iteration, so `spec.length + 1` units of fuel always
suffice; exhausted fuel is reported as an (unreachable) error. -/
def parseValueSpecs (orgSpec : String) (spec : String) (valuesDelim : Option Char) :
    Nat → Nat → Option Char → List ArgValueSpec → Except GoErr (Option Char × List ArgValueSpec)
  | 0, _, _, _ => .error (.goError "model: value spec loop fuel exhausted")
  | fuel + 1, parsePos, valueDelim, acc =>
    if parsePos < spec.length then do
      let c0 ← goCharAt spec parsePos
      -- optional marker: '[' directly, or the ' ' '[' pair (which leaves c at ' ')
      let (optionalFlag, pos1, c1) ←
        if c0 = '[' then do
          let c' ← goCharAt spec (parsePos + 1)
          pure (true, parsePos + 1, c')
        else if parsePos + 1 < spec.length ∧ c0 = ' ' ∧ spec.data.get? (parsePos + 1) = some '[' then
          pure (true, parsePos + 1, c0)
        else
          pure (false, parsePos, c0)
      -- value delimiter between consecutive value specs
      let (valueDelim2, pos2, c2) ←
        if (c1 = ',' ∨ c1 = ' ') ∧ acc ≠ [] then
          if valueDelim = none then
            if c1 = ' ' ∧ valuesDelim = some ':' then
              .error (parseError "comma-separated value spec list" orgSpec spec pos1)
            else do
              let c' ← goCharAt spec (pos1 + 1)
              pure (some c1, pos1 + 1, c')
          else if valueDelim ≠ some c1 then
            .error (parseError "uniform value delimiter" orgSpec spec pos1)
          else do
            let c' ← goCharAt spec (pos1 + 1)
            pure (valueDelim, pos1 + 1, c')
        else
          pure (valueDelim, pos1, c1)
      -- per-value multi marker
      let (multiFlag, pos3, c3) ←
        if c2 = '*' then do
          let c' ← goCharAt spec (pos2 + 1)
          pure (true, pos2 + 1, c')
        else
          pure (false, pos2, c2)
      if c3 ≠ '<' then
        .error (parseError "'<'" orgSpec spec pos3)
      else do
        let pos4 := pos3 + 1
        let dashPos := indexOf spec "-" pos4
        if dashPos < 0 then
          .error (parseError "'-'" orgSpec spec pos4)
        else do
          let dashPos := dashPos.toNat
          let optionType := goSlice spec pos4 dashPos
          let _ ← stringToAttributes optionType orgSpec
          let pos5 := dashPos + 1
          let closeBracket := indexOf spec ">" pos5
          if closeBracket < 0 then
            .error (parseError "'>'" orgSpec spec pos5)
          else do
            let closeBracket := closeBracket.toNat
            let optionName := goSlice spec pos5 closeBracket
            if ¬ isTokenName optionName then
              .error (parseError "valid option name" orgSpec spec pos5)
            else do
              let pos6 := closeBracket + 1
              let pos7 ←
                if optionalFlag then
                  if pos6 ≥ spec.length ∨ spec.data.get? pos6 ≠ some ']' then
                    .error (parseError "']'" orgSpec spec pos6)
                  else
                    pure (pos6 + 1)
                else
                  pure pos6
              let attribs ← stringToAttributes optionType orgSpec
              let avs : ArgValueSpec :=
                { argIndex := attribs.1, optionName := optionName,
                  optional := optionalFlag, multi := multiFlag,
                  defaultValue := attribs.2 }
              if acc.any (fun arg => arg.optionName = optionName) then
                .error (.goError ("duplicate value spec \"" ++ optionName ++ "\" in \"" ++ orgSpec ++ "\""))
              else
                parseValueSpecs orgSpec spec valuesDelim fuel pos7 valueDelim2 (acc ++ [avs])
    else
      .ok (valueDelim, acc)

/-- arg-spec.go newArgSpec: the Template Compiler for one spec string.
Panics are modeled as `Except.error`. -/
def newArgSpec (spec0 : String) (primaryArg : Bool) : Except GoErr ArgSpec := do
  let orgSpec := spec0
  -- help text is cut at the last question mark
  let helpCutPoint := goLastIndex spec0 "?"
  let (helpText, spec1) :=
    if helpCutPoint ≥ 0 then
      (goStrDrop spec0 (helpCutPoint.toNat + 1), goStrTake spec0 helpCutPoint.toNat)
    else
      ("", spec0)
  let (multiValue, spec2) :=
    if goHasPrefix spec1 "*" then (true, goStrDrop spec1 1) else (false, spec1)
  let (optionalFlag, spec3) :=
    if goHasPrefix spec2 "[" ∧ goHasSuffix spec2 "]" then
      (true, goStrDropRight (goStrDrop spec2 1) 1)
    else
      (false, spec2)
  let argDelimiter := goIndexAny spec3 ": "
  let (key, valuesDelim, spec4, valueDelim, valueSpecs) ←
    if argDelimiter < 0 then
      pure (spec3, (none : Option Char), spec3, (none : Option Char), ([] : List ArgValueSpec))
    else do
      let argDelimiter := argDelimiter.toNat
      let key0 := goStrTake spec3 argDelimiter
      let valuesDelim := spec3.data.get? argDelimiter
      let (key1, spec5) :=
        match whichSuffix key0 [" [", "["] with
        | some suf =>
          let suf2 := if suf = " [" then "[ " else suf
          (goStrTake spec3 (argDelimiter - 1), suf2 ++ goStrDrop spec3 (argDelimiter + 1))
        | none => (key0, goStrDrop spec3 (argDelimiter + 1))
      if spec5.length = 0 then
        .error (parseError "value spec" orgSpec spec5 0)
      else do
        let (valueDelim, valueSpecs) ←
          parseValueSpecs orgSpec spec5 valuesDelim (spec5.length + 1) 0 none []
        pure (key1, valuesDelim, spec5, valueDelim, valueSpecs)
  if key.length = 0 then
    .error (parseError "argument name" orgSpec spec4 0)
  else do
    let unnamed := key = "~"
    let trimmedKey := goTrimPrefix (goTrimPrefix key "-") "-"
    if ¬ isTokenNameWithMiddleChars trimmedKey ['-'] ∧ ¬ unnamed then
      .error (parseError "a valid argument token" orgSpec spec4 0)
    else do
      let as : ArgSpec :=
        { key := key, unnamed := unnamed, optional := optionalFlag,
          valuesDelim := valuesDelim, valueDelim := valueDelim,
          valueSpecs := valueSpecs, multiValue := multiValue,
          helpText := helpText }
      if primaryArg then
        if as.optional then
          .error (parseError "non-optional primary argument" orgSpec spec4 0)
        else if as.multiValue then
          .error (parseError "single-value primary argument" orgSpec spec4 0)
        else if as.unnamed ∧ as.valuesDelim = some ':' then
          .error (parseError "unnamed argument without a value spec" orgSpec spec4 0)
        else
          pure as
      else
        if as.unnamed then
          .error (parseError "named seconary argument" orgSpec spec4 0)
        else
          pure as

/-! ## Runtime value maps (Go map[string]any, insertion-ordered) -/

abbrev GoMap := List (String × GoVal)

def goMapGet (m : GoMap) (k : String) : Option GoVal :=
  (m.find? (fun p => p.1 = k)).map (fun p => p.2)

def goMapInsert : GoMap → String → GoVal → GoMap
  | [], k, v => [(k, v)]
  | (k0, v0) :: t, k, v =>
    if k0 = k then (k, v) :: t else (k0, v0) :: goMapInsert t k v

/-! ## arg-spec.go: storeArg and Parse (the binding engine) -/

/-- arg-spec.go argSpec.storeArg. -/
def storeArg (as : ArgSpec) (eff : GoMap) (spec : ArgValueSpec) (input : String) : Except GoErr GoMap :=
  if as.multiValue || spec.multi then do
    let list ←
      match goMapGet eff spec.optionName with
      | none => newList spec.argIndex
      | some v => pure v
    let list ← appendList spec.argIndex list input
    pure (goMapInsert eff spec.optionName list)
  else do
    let value ← makeValue spec.argIndex input
    pure (goMapInsert eff spec.optionName value)

/-- The absorb loop of Parse's single-value-spec branch: a multi spec with
space values delimiter consumes every following non-dash token.  Fuel
`subs.length + 1` always suffices (the cursor advances each step). -/
def parseAbsorbSingle (as : ArgSpec) (vs : ArgValueSpec) (subs : List String) :
    Nat → GoMap → Nat → Except GoErr (GoMap × Nat)
  | 0, eff, argsUsed => .ok (eff, argsUsed)
  | fuel + 1, eff, argsUsed =>
    match subs.get? argsUsed with
    | none => .ok (eff, argsUsed)
    | some a =>
      if goHasPrefix a "-" then .ok (eff, argsUsed)
      else do
        let eff ← storeArg as eff vs a
        parseAbsorbSingle as vs subs fuel eff (argsUsed + 1)

/-- Inner absorb loop of the space-form value collection: consume non-dash
tokens into `values`. -/
def absorbNonDash (subs : List String) : Nat → Nat → List String → (List String × Nat)
  | 0, argsUsed, values => (values, argsUsed)
  | fuel + 1, argsUsed, values =>
    match subs.get? argsUsed with
    | none => (values, argsUsed)
    | some a =>
      if goHasPrefix a "-" then (values, argsUsed)
      else absorbNonDash subs fuel (argsUsed + 1) (values ++ [a])

/-- Parse's space-form collection loop: one argv token per value spec, a
multi spec absorbing all further non-dash tokens. -/
def collectSpaceValues (subs : List String) : List ArgValueSpec → Nat → List String → (List String × Nat)
  | [], argsUsed, values => (values, argsUsed)
  | vs :: rest, argsUsed, values =>
    match subs.get? argsUsed with
    | none => (values, argsUsed)
    | some a =>
      if goHasPrefix a "-" then (values, argsUsed)
      else
        let values2 := values ++ [a]
        let argsUsed2 := argsUsed + 1
        let (values3, argsUsed3) :=
          if vs.multi then absorbNonDash subs (subs.length + 1) argsUsed2 values2
          else (values2, argsUsed2)
        collectSpaceValues subs rest argsUsed3 values3

/-- Parse's inner removal loop for a multi value spec under the space
delimiter: repeatedly store values[i+1] and splice values[0:i]+values[i+2:]
(faithful to the source, which also drops element i in the splice). -/
def removeAbsorb (as : ArgSpec) (vs : ArgValueSpec) (i : Nat) :
    Nat → List String → GoMap → Except GoErr (List String × GoMap)
  | 0, values, eff => .ok (values, eff)
  | fuel + 1, values, eff =>
    if i + 1 ≥ values.length then .ok (values, eff)
    else
      match values.get? (i + 1) with
      | none => .ok (values, eff)
      | some value => do
        let values2 := values.take i ++ values.drop (i + 2)
        let eff2 ← storeArg as eff vs value
        removeAbsorb as vs i fuel values2 eff2

/-- Parse's distribution loop over the value specs (`for i, valueSpec :=
range as.ValueSpecs`): reuse of the last comma value past the supplied
count, optional break, or missing-required failure. -/
def distributeValues (as : ArgSpec) : List ArgValueSpec → Nat → List String → GoMap → Except GoErr GoMap
  | [], _, _, eff => .ok eff
  | vs :: rest, i, values, eff =>
    if i ≥ values.length then
      if as.valueDelim = some ',' then
        match values.getLast? with
        | some last => do
          let eff2 ← storeArg as eff vs last
          distributeValues as rest (i + 1) values eff2
        | none => .error (.goError "runtime error: index out of range")
      else if vs.optional then .ok eff
      else .error (.cmdLineErr ("Required value " ++ vs.optionName ++ " is missing"))
    else
      match values.get? i with
      | none => .error (.goError "runtime error: index out of range")
      | some vi => do
        let eff2 ← storeArg as eff vs vi
        if vs.multi ∧ as.valuesDelim = some ' ' then do
          let (values2, eff3) ← removeAbsorb as vs i (values.length + 1) values eff2
          distributeValues as rest (i + 1) values2 eff3
        else
          distributeValues as rest (i + 1) values eff2

/-- arg-spec.go argSpec.Parse: bind one ArgSpec against an optional inline
colon value and the following argv tokens, extending the effective args
map; returns the number of subsequent args consumed. -/
def ArgSpec.parse (as : ArgSpec) (eff : GoMap) (colonValue : Option String)
    (subsequentArgs : List String) : Except GoErr (GoMap × Nat) :=
  let (input, argsUsed) :=
    match colonValue with
    | some v => (some v, 0)
    | none =>
      if as.valuesDelim = some ' ' then
        match subsequentArgs with
        | a :: _ => if ¬ goHasPrefix a "-" then (some a, 1) else (none, 0)
        | [] => ((none : Option String), 0)
      else ((none : Option String), 0)
  match input with
  | none =>
    match as.valueSpecs with
    | vs0 :: _ =>
      if ¬ vs0.optional then
        .error (.cmdLineErr ("Required value " ++ vs0.optionName ++ " is missing"))
      else
        let eff2 := as.valueSpecs.foldl (fun m vs => goMapInsert m vs.optionName vs.defaultValue) eff
        .ok (goMapInsert eff2 as.key (.vBool true), argsUsed)
    | [] => .ok (goMapInsert eff as.key (.vBool true), argsUsed)
  | some inp =>
    match as.valueSpecs with
    | [] => .error (.cmdLineErr ("Unexpected command argument: " ++ inp))
    | [vs0] => do
      let eff2 ← storeArg as eff vs0 inp
      let (eff3, argsUsed3) ←
        if vs0.multi ∧ as.valuesDelim = some ' ' then
          parseAbsorbSingle as vs0 subsequentArgs (subsequentArgs.length + 1) eff2 argsUsed
        else
          pure (eff2, argsUsed)
      .ok (goMapInsert eff3 as.key (.vBool true), argsUsed3)
    | vs0 :: vs1 :: restSpecs => do
      let specs := vs0 :: vs1 :: restSpecs
      let (values, argsUsed2) :=
        if as.valueDelim = some ',' then (goSplit inp ",", argsUsed)
        else collectSpaceValues subsequentArgs specs 0 []
      let eff2 ← distributeValues as specs 0 values eff
      .ok (goMapInsert eff2 as.key (.vBool true), argsUsed2)

/-! ## arg-spec.go: the String serializer -/

/-- Rendering of a Go rune variable holding the zero value (unset
delimiter): the NUL rune. -/
def delimStr : Option Char → String
  | some c => String.singleton c
  | none => String.singleton (Char.ofNat 0)

/-- Loop body of argSpec.String over the value specs, carrying the
`first` flag and the count of pending close brackets. -/
def stringValueSpecs (as : ArgSpec) : List ArgValueSpec → Bool → Nat → (String × Nat)
  | [], _, optionalValues => ("", optionalValues)
  | vs :: rest, first, optionalValues =>
    let chars0 := if vs.optional then "[" else ""
    let optionalValues2 := if vs.optional then optionalValues + 1 else optionalValues
    let chars1 :=
      if first then
        chars0 ++ (if ¬ as.unnamed then delimStr as.valuesDelim else "")
      else
        chars0 ++ delimStr as.valueDelim
    let s := if chars1 = "[ " then " [" else chars1
    let piece := s ++ "<" ++ vs.optionName ++ ">"
    let (tail, finalCount) := stringValueSpecs as rest false optionalValues2
    (piece ++ tail, finalCount)

/-- arg-spec.go argSpec.String: re-serialize a compiled ArgSpec for help
display. -/
def ArgSpec.string (as : ArgSpec) : String :=
  let head := (if as.multiValue then "*" else "")
    ++ (if as.optional then "[" else "")
    ++ (if ¬ as.unnamed then as.key else "")
  let (body, optionalValues) := stringValueSpecs as as.valueSpecs true 0
  head ++ body ++ goRepeat "]" optionalValues ++ (if as.optional then "]" else "")

/-! ## Commands, global options and the Registry (cmdline.go) -/

/-- A registered command: handler, primary ArgSpec, option ArgSpecs keyed
by their literal token (modeled in registration order). -/
structure Command where
  handler : GoMap → Option GoErr
  primaryArgSpec : ArgSpec
  optionSpecs : List ArgSpec

/-- A registered global option. -/
structure GlobalOption where
  handler : GoMap → Option GoErr
  argSpec : ArgSpec

/-- The Registry (cmdline.go CommandLine), with the default ValueType
provider.  The Go maps are modeled as insertion-ordered lists keyed by
`primaryArgSpec.key` / `argSpec.key`. -/
structure CommandLine where
  commands : List Command
  unnamedCmd : Option Command
  globalOptions : List GlobalOption

def newCommandLine : CommandLine :=
  { commands := [], unnamedCmd := none, globalOptions := [] }

def findCommand (cmds : List Command) (k : String) : Option Command :=
  cmds.find? (fun c => c.primaryArgSpec.key = k)

def findGlobalOption (opts : List GlobalOption) (k : String) : Option GlobalOption :=
  opts.find? (fun g => g.argSpec.key = k)

def findOptionSpec (specs : List ArgSpec) (k : String) : Option ArgSpec :=
  specs.find? (fun s => s.key = k)

/-- Go map assignment m[k] = v for the command map. -/
def insertCommand : List Command → Command → List Command
  | [], cmd => [cmd]
  | c :: t, cmd =>
    if c.primaryArgSpec.key = cmd.primaryArgSpec.key then cmd :: t
    else c :: insertCommand t cmd

/-- Go map assignment m[k] = v for the global option map. -/
def insertGlobalOption : List GlobalOption → GlobalOption → List GlobalOption
  | [], g => [g]
  | g0 :: t, g =>
    if g0.argSpec.key = g.argSpec.key then g :: t
    else g0 :: insertGlobalOption t g

/-- command.go newCommand: compile the primary spec and the option specs. -/
def newCommand (handler : GoMap → Option GoErr) (specList : List String) : Except GoErr Command :=
  match specList with
  | [] => .error (.goError "argument error: specList is required")
  | primary :: rest => do
    let spec ← newArgSpec primary true
    let opts ← rest.mapM (fun s => newArgSpec s false)
    pure { handler := handler, primaryArgSpec := spec, optionSpecs := opts }

/-- global-option.go newGlobalOption. -/
def newGlobalOption (handler : GoMap → Option GoErr) (spec : String) : Except GoErr GlobalOption := do
  let as ← newArgSpec spec false
  pure { handler := handler, argSpec := as }

/-- cmdline.go checkForDuplicateName: panic when the name was already
seen, else record it. -/
def checkForDuplicateName (names : List String) (spec : String) : Except GoErr (List String) :=
  if names.contains spec then
    .error (.goError (basePanic ++ "unique argument \"" ++ spec ++ "\""))
  else
    .ok (names ++ [spec])

/-- Per-command body of checkForDuplicateNames: the primary key goes into
the persistent `names` set; the command's value/option names only go into
a per-command copy. -/
def checkCommandNames (names : List String) (cmd : Command) : Except GoErr (List String) := do
  let names2 ← checkForDuplicateName names cmd.primaryArgSpec.key
  let cmdNames := names2
  let cmdNames2 ← cmd.primaryArgSpec.valueSpecs.foldlM
    (fun ns vs => checkForDuplicateName ns vs.optionName) cmdNames
  let _ ← cmd.optionSpecs.foldlM
    (fun ns os => do
      let ns2 ← checkForDuplicateName ns os.key
      os.valueSpecs.foldlM (fun ns3 vs => checkForDuplicateName ns3 vs.optionName) ns2)
    cmdNames2
  pure names2

/-- The fallible body of cmdline.go checkForDuplicateNames: global option
keys first, then every command (the new one appended last). -/
def dupCheckRun (cl : CommandLine) (newCmd : Option Command) : Except GoErr Unit := do
  let names ← cl.globalOptions.foldlM
    (fun ns g => checkForDuplicateName ns g.argSpec.key) []
  let _ ← (cl.commands ++ newCmd.toList).foldlM checkCommandNames names
  pure ()

/-- cmdline.go checkForDuplicateNames over the whole registry plus an
optional new command appended last; `some e` is the panic payload. -/
def checkForDuplicateNames (cl : CommandLine) (newCmd : Option Command) : Option GoErr :=
  match dupCheckRun cl newCmd with
  | .ok _ => none
  | .error e => some e

/-- cmdline.go RegisterCommand.  A Go panic is modeled by returning the
panic payload next to the (unchanged) registry state. -/
def registerCommand (cl : CommandLine) (handler : GoMap → Option GoErr)
    (specList : List String) : CommandLine × Option GoErr :=
  match newCommand handler specList with
  | .error e => (cl, some e)
  | .ok cmd =>
    match checkForDuplicateNames cl (some cmd) with
    | some e => (cl, some e)
    | none =>
      let commands2 := insertCommand cl.commands cmd
      let unnamed2 :=
        if commands2.length = 1 ∧ cmd.primaryArgSpec.unnamed then some cmd else none
      ({ commands := commands2, unnamedCmd := unnamed2,
         globalOptions := cl.globalOptions }, none)

/-- cmdline.go RegisterGlobalOption: the option is inserted into the
registry before the duplicate-name check runs, so a panic leaves the
mutated registry behind. -/
def registerGlobalOption (cl : CommandLine) (handler : GoMap → Option GoErr)
    (spec : String) : CommandLine × Option GoErr :=
  match newGlobalOption handler spec with
  | .error e => (cl, some e)
  | .ok g =>
    let cl2 : CommandLine :=
      { commands := cl.commands, unnamedCmd := cl.unnamedCmd,
        globalOptions := insertGlobalOption cl.globalOptions g }
    (cl2, checkForDuplicateNames cl2 none)

/-! ## cmdline.go Process: the Dispatch Engine -/

/-- cmdline.go splitColon. -/
def splitColon (arg : String) : String × Option String :=
  let delimiter := goIndexAny arg ":"
  if delimiter ≥ 0 then
    (goStrTake arg delimiter.toNat, some (goStrDrop arg (delimiter.toNat + 1)))
  else
    (arg, none)

/-- global-option-to-run.go newGlobalOptionToRun.  The Go guard
`ValueSpecs != nil` is always true for specs built by newArgSpec (which
assigns an empty non-nil slice), so the parse always runs. -/
def newGlobalOptionToRun (g : GlobalOption) (colonValue : Option String)
    (subs : List String) : Except GoErr (GoMap × Nat) :=
  g.argSpec.parse [] colonValue subs

/-- Process's global scan: split each token at its colon, queue matching
global options (consuming their following tokens), keep the rest as
command arguments.  Fuel `args.length + 1` always suffices. -/
def globalScan (cl : CommandLine) : Nat → List String → List (GlobalOption × GoMap) →
    List String → Except GoErr (List (GlobalOption × GoMap) × List String)
  | 0, _, acc, cmdArgs => .ok (acc, cmdArgs)
  | fuel + 1, args, acc, cmdArgs =>
    match args with
    | [] => .ok (acc, cmdArgs)
    | arg :: rest =>
      let (sw, value) := splitColon arg
      match findGlobalOption cl.globalOptions sw with
      | some g => do
        let (values, argsUsed) ← newGlobalOptionToRun g value rest
        globalScan cl fuel (rest.drop argsUsed) (acc ++ [(g, values)]) cmdArgs
      | none => globalScan cl fuel rest acc (cmdArgs ++ [arg])

/-- Process's global execution phase: run the queued handlers in scan
order, aborting on the first error. -/
def runGlobalOptions : List (GlobalOption × GoMap) → Option GoErr
  | [] => none
  | (g, values) :: rest =>
    match g.handler values with
    | some e => some e
    | none => runGlobalOptions rest

/-- cmdline.go addDefaults. -/
def addDefaults (values : GoMap) (as : ArgSpec) : GoMap :=
  let values2 :=
    if goMapGet values as.key = none then goMapInsert values as.key (.vBool false)
    else values
  as.valueSpecs.foldl
    (fun m vs =>
      if goMapGet m vs.optionName = none then goMapInsert m vs.optionName vs.defaultValue
      else m)
    values2

/-- Process's option scan: every remaining token must name one of the
command's options; matched options consume their own following tokens and
are struck from the required set. -/
def optionScan (cmd : Command) : Nat → List String → GoMap → List String →
    Except GoErr (GoMap × List String)
  | 0, _, values, req => .ok (values, req)
  | fuel + 1, args, values, req =>
    match args with
    | [] => .ok (values, req)
    | arg :: rest =>
      let (sw, value) := splitColon arg
      match findOptionSpec cmd.optionSpecs sw with
      | none => .error (.cmdLineErr ("Unrecognized command argument: " ++ sw))
      | some os => do
        let values2 := goMapInsert values sw (.vBool true)
        let (values3, argsUsed) ← os.parse values2 value rest
        let req2 := if req.contains sw then req.erase sw else req
        optionScan cmd fuel (rest.drop argsUsed) values3 req2

/-- Outcome of one Process invocation: a Go panic, a returned error, or a
completed run recording the Values mapping handed to the command handler
together with the handler's verdict. -/
inductive ProcResult where
  | panicked (e : GoErr)
  | failed (e : GoErr)
  | ran (values : GoMap) (handlerResult : Option GoErr)
deriving DecidableEq, Repr

/-- The straight-line tail of Process once the command is resolved:
primary binding, option scan, required-option enforcement, defaulting,
handler invocation. -/
def processCommandPhase (cmd : Command) (primaryArgValue : Option String)
    (argBaseIndex : Nat) (commandArgs : List String) : ProcResult :=
  match cmd.primaryArgSpec.parse [] primaryArgValue (commandArgs.drop argBaseIndex) with
  | .error e => .failed e
  | .ok (values, argsUsed) =>
    let required := cmd.optionSpecs.filterMap
      (fun os => if ¬ os.optional then some os.key else none)
    let tail := commandArgs.drop (argBaseIndex + argsUsed)
    match optionScan cmd (tail.length + 1) tail values required with
    | .error e => .failed e
    | .ok (values2, req2) =>
      if req2 ≠ [] then
        .failed (.cmdLineErr ("Arguments required: " ++ goSliceFmt (goSortStrings req2)))
      else
        let values3 := cmd.optionSpecs.foldl
          (fun m os => if os.optional then addDefaults m os else m) values2
        let values4 := addDefaults values3 cmd.primaryArgSpec
        .ran values4 (cmd.handler values4)

/-- cmdline.go Process. -/
def process (cl : CommandLine) (args : List String) : ProcResult :=
  if cl.commands.isEmpty then .panicked (.goError "a command option is required")
  else
    match globalScan cl (args.length + 1) args [] [] with
    | .error e => .failed e
    | .ok (queue, commandArgs) =>
      match runGlobalOptions queue with
      | some e => .failed e
      | none =>
        match commandArgs with
        | [] =>
          match cl.unnamedCmd with
          | none => .failed (.cmdLineErr "A command is required")
          | some cmd => processCommandPhase cmd none 0 commandArgs
        | a0 :: _ =>
          match cl.unnamedCmd with
          | some cmd => processCommandPhase cmd none 0 commandArgs
          | none =>
            let (sw, value) := splitColon a0
            match findCommand cl.commands sw with
            | none => .failed (.cmdLineErr ("Unrecognized command: " ++ sw))
            | some cmd => processCommandPhase cmd value 1 commandArgs

/-! ## cmdline.go help: filtering and the two-pass renderer -/

def maxLineWidth : Nat := 120
def maxRiver : Nat := 30
def riverSpaces : Nat := 2

/-- cmdline.go shouldShow: the help filter test for one spec (with its
nested option specs when given). -/
def shouldShow (primaryArgSpec : ArgSpec) (optionSpecs : Option (List ArgSpec))
    (filter : String) : Bool :=
  let filter := goTrimSpace filter
  if filter.length = 0 then true
  else
    let key := primaryArgSpec.key
    if goContains key filter then true
    else
      let help := goToLower primaryArgSpec.helpText
      if goContains help filter then true
      else
        match optionSpecs with
        | some opts =>
          opts.any (fun option =>
            goContains (goToLower option.key) filter ||
            goContains (goToLower option.helpText) filter)
        | none => false

/-- Command selection in printCommandsWorker: the filter is trimmed and
lowercased before shouldShow runs on each command. -/
def commandShown (cmd : Command) (filter : String) : Bool :=
  shouldShow cmd.primaryArgSpec (some cmd.optionSpecs) (goToLower (goTrimSpace filter))

/-- Global option selection in printCommandsWorker: shouldShow runs on the
unmodified filter (the lowercasing happens after the global loop). -/
def globalOptionShown (g : GlobalOption) (filter : String) : Bool :=
  shouldShow g.argSpec none filter

/-- cmdline.go helpLine. -/
structure HelpLine where
  str1 : String
  str2 : String
  indent : Nat
  cols : Nat
deriving DecidableEq, Repr

/-- cmdline.go helpPrintCols: queue a two-column line (or fold an
argument-less description into column one). -/
def helpPrintCols (queue : List HelpLine) (indent : Nat) (argText description : String) :
    List HelpLine :=
  if argText.length = 0 then
    if description.length > 0 then
      queue ++ [{ str1 := goRepeat "  " indent ++ description, str2 := "", indent := 0, cols := 2 }]
    else queue
  else
    queue ++ [{ indent := indent, str1 := argText, str2 := description, cols := 2 }]

/-- Pass 1 of helpRender: the river loop computing the column where
descriptions start. -/
def riverLoop : List HelpLine → Nat → Nat
  | [], riverWidth => riverWidth
  | help :: rest, riverWidth =>
    if help.cols > 1 then
      let argText := goRepeat "  " help.indent ++ help.str1
      let width := argText.length
      if width > 0 then
        let width2 := width + riverSpaces
        if width2 > maxRiver then maxRiver
        else if width2 > riverWidth then riverLoop rest width2
        else riverLoop rest riverWidth
      else riverLoop rest riverWidth
    else riverLoop rest riverWidth

/-- The wrap-point search of indentedPrint: the last space of `thisLine`
that still fits within `wrap` once shifted by `column`. -/
def wrapCutLoop (thisLine : String) (column wrap : Nat) : Nat → Int → Int
  | 0, cutPoint => cutPoint
  | fuel + 1, cutPoint =>
    let nextCutPoint := indexOf thisLine " " (cutPoint + 1).toNat
    if nextCutPoint < 0 ∨ nextCutPoint + (column : Int) > (wrap : Int) then cutPoint
    else wrapCutLoop thisLine column wrap fuel nextCutPoint

/-- Printer state while rendering one queued line: emitted physical lines
plus the open (begun, unfinished) line and its column. -/
structure PrintState where
  lines : List String
  pending : String
  column : Nat
deriving DecidableEq, Repr

/-- The segment loop of indentedPrint: pad to the river, wrap at space
boundaries against `wrap`, emit, repeat on the remainder. -/
def printSegmentLoop (indent wrap : Nat) : Nat → String → PrintState → PrintState
  | 0, _, st => st
  | fuel + 1, fullLine, st =>
    if fullLine.length = 0 then st
    else
      let st1 := if st.column = 0 then { st with pending := "" } else st
      let (nextIndent, column1) :=
        if st1.column < indent then (goRepeat " " (indent - st1.column), indent)
        else ("", st1.column)
      let thisLine := fullLine
      let thisLine2 :=
        if column1 + thisLine.length > wrap then
          let cutPoint := wrapCutLoop thisLine column1 wrap (thisLine.length + 1) (-1)
          if cutPoint > 0 then goStrTake thisLine cutPoint.toNat else thisLine
        else thisLine
      let lines2 := st1.lines ++ [st1.pending ++ nextIndent ++ goTrimSpace thisLine2]
      let fullLine2 := goTrimSpace (goStrDrop fullLine thisLine2.length)
      printSegmentLoop indent wrap fuel fullLine2
        { lines := lines2, pending := "", column := 0 }

/-- Per-source-line body of indentedPrint: blank lines close the open line
or print an empty line; the rest goes through the segment loop. -/
def processTextLine (indent wrap : Nat) (st : PrintState) (line : String) : PrintState :=
  if (goTrimSpace line).length = 0 then
    if st.column > 0 then { lines := st.lines ++ [st.pending], pending := "", column := 0 }
    else { st with lines := st.lines ++ [""] }
  else
    printSegmentLoop indent wrap (line.length + 1) line st

/-- cmdline.go indentedPrint, as the list of physical output lines. -/
def indentedPrint (arg : String) (indent wrap : Nat) (text : String) : List String :=
  let st0 : PrintState :=
    if arg.length > 0 then
      if text.length = 0 then { lines := [arg], pending := "", column := 0 }
      else if arg.length ≥ indent then { lines := [arg], pending := "", column := 0 }
      else { lines := [], pending := arg, column := arg.length }
    else
      { lines := [], pending := "", column := 0 }
  if arg.length > 0 ∧ text.length = 0 then st0.lines
  else
    ((goSplit text "\n").foldl (processTextLine indent wrap) st0).lines

/-- cmdline.go helpRender, as the list of physical output lines: pass 1
computes the river, pass 2 prints every queued line. -/
def helpRenderLines (queue : List HelpLine) : List String :=
  let riverWidth := riverLoop queue 0
  queue.foldl
    (fun lines help =>
      let argText := goRepeat "  " help.indent ++ help.str1
      if help.cols = 1 then lines ++ [argText]
      else lines ++ indentedPrint argText riverWidth maxLineWidth help.str2)
    []

/-! ## Shared lemmas about the embedded operations -/

theorem exceptBind_ok {α β : Type} {x : Except GoErr α} {f : α → Except GoErr β} {b : β}
    (h : (x >>= f) = .ok b) : ∃ a, x = .ok a ∧ f a = .ok b := by
  cases x with
  | error e => exact absurd h (by simp [Bind.bind, Except.bind])
  | ok a => exact ⟨a, rfl, by simpa [Bind.bind, Except.bind] using h⟩

theorem exceptMap_ok {α β : Type} {g : α → β} {x : Except GoErr α} {b : β}
    (h : (g <$> x) = .ok b) : ∃ a, x = .ok a ∧ g a = b := by
  cases x with
  | error e => exact absurd h (by simp [Functor.map, Except.map])
  | ok a => exact ⟨a, rfl, by simpa [Functor.map, Except.map] using h⟩

theorem goMapGet_insert (m : GoMap) (k k2 : String) (v : GoVal) :
    goMapGet (goMapInsert m k v) k2 = if k2 = k then some v else goMapGet m k2 := by
  induction m with
  | nil =>
    by_cases h : k2 = k
    · subst h; simp [goMapInsert, goMapGet, List.find?]
    · simp [goMapInsert, goMapGet, List.find?, h, Ne.symm h]
  | cons p t ih =>
    obtain ⟨k0, v0⟩ := p
    by_cases h0 : k0 = k
    · subst h0
      by_cases h : k2 = k0
      · subst h; simp [goMapInsert, goMapGet, List.find?]
      · simp [goMapInsert, goMapGet, List.find?, h, Ne.symm h]
    · by_cases h : k2 = k0
      · subst h
        simp only [goMapInsert, if_neg h0]
        simp [goMapGet, List.find?, Ne.symm h0]
      · simp only [goMapInsert, if_neg h0]
        simp only [goMapGet, List.find?] at ih ⊢
        simp only [show (k0 = k2) = False from eq_false (fun hh => h hh.symm), decide_False]
        exact ih

theorem checkForDuplicateName_ok {names ns2 : List String} {s : String}
    (h : checkForDuplicateName names s = .ok ns2) :
    ns2 = names ++ [s] ∧ s ∉ names := by
  by_cases hm : s ∈ names
  · simp [checkForDuplicateName, hm] at h
  · simp [checkForDuplicateName, hm] at h
    exact ⟨h.symm, hm⟩

theorem checkCommandNames_ok {names ns2 : List String} {cmd : Command}
    (h : checkCommandNames names cmd = .ok ns2) :
    ns2 = names ++ [cmd.primaryArgSpec.key] ∧ cmd.primaryArgSpec.key ∉ names := by
  unfold checkCommandNames at h
  obtain ⟨names2, h1, h⟩ := exceptBind_ok h
  obtain ⟨he, hf⟩ := checkForDuplicateName_ok h1
  obtain ⟨cmdNames2, h2, h⟩ := exceptBind_ok h
  obtain ⟨final, h3, h⟩ := exceptMap_ok h
  exact ⟨h ▸ he, hf⟩

theorem foldlM_globals_ok {gl : List GlobalOption} {ns ns2 : List String}
    (h : gl.foldlM (fun ns g => checkForDuplicateName ns g.argSpec.key) ns = .ok ns2) :
    ns2 = ns ++ gl.map (fun g => g.argSpec.key) := by
  induction gl generalizing ns with
  | nil =>
    simp only [List.foldlM, pure, Except.pure, Except.ok.injEq] at h
    simp [h]
  | cons g t ih =>
    simp only [List.foldlM] at h
    obtain ⟨ns1, h1, h2⟩ := exceptBind_ok h
    obtain ⟨he, _⟩ := checkForDuplicateName_ok h1
    subst he
    simpa using ih h2

theorem foldlM_commands_append_ok {l : List Command} {cmd : Command} {ns ns2 : List String}
    (h : (l ++ [cmd]).foldlM checkCommandNames ns = .ok ns2) :
    cmd.primaryArgSpec.key ∉ ns ++ l.map (fun c => c.primaryArgSpec.key) := by
  induction l generalizing ns with
  | nil =>
    simp only [List.nil_append, List.foldlM] at h
    obtain ⟨ns1, h1, h2⟩ := exceptBind_ok h
    obtain ⟨_, hf⟩ := checkCommandNames_ok h1
    simpa using hf
  | cons c t ih =>
    simp only [List.cons_append, List.foldlM] at h
    obtain ⟨ns1, h1, h2⟩ := exceptBind_ok h
    obtain ⟨he, _⟩ := checkCommandNames_ok h1
    subst he
    have h3 := ih h2
    simp only [List.mem_append, List.mem_cons, List.mem_singleton, List.map_cons] at h3 ⊢
    tauto

theorem checkForDuplicateNames_ok_key_fresh {cl : CommandLine} {cmd : Command}
    (h : checkForDuplicateNames cl (some cmd) = none) :
    cmd.primaryArgSpec.key ∉ cl.globalOptions.map (fun g => g.argSpec.key) ∧
    cmd.primaryArgSpec.key ∉ cl.commands.map (fun c => c.primaryArgSpec.key) := by
  unfold checkForDuplicateNames at h
  cases hrun : dupCheckRun cl (some cmd) with
  | error e => rw [hrun] at h; simp at h
  | ok u =>
    unfold dupCheckRun at hrun
    obtain ⟨names, hg, hrest⟩ := exceptBind_ok hrun
    have hnames := foldlM_globals_ok hg
    subst hnames
    obtain ⟨final, hf, _⟩ := exceptMap_ok hrest
    simp only [Option.toList] at hf
    have h2 := foldlM_commands_append_ok hf
    simp only [List.nil_append, List.mem_append] at h2
    constructor
    · intro hc; exact h2 (Or.inl hc)
    · intro hc; exact h2 (Or.inr hc)

theorem insertCommand_fresh {l : List Command} {cmd : Command}
    (h : cmd.primaryArgSpec.key ∉ l.map (fun c => c.primaryArgSpec.key)) :
    insertCommand l cmd = l ++ [cmd] := by
  induction l with
  | nil => rfl
  | cons c t ih =>
    simp only [List.map_cons, List.mem_cons] at h
    push_neg at h
    have hne : ¬ (c.primaryArgSpec.key = cmd.primaryArgSpec.key) := fun hh => h.1 hh.symm
    simp [insertCommand, hne, ih h.2]

theorem insertCommand_length_ge (l : List Command) (cmd : Command) :
    l.length ≤ (insertCommand l cmd).length := by
  induction l with
  | nil => simp [insertCommand]
  | cons c t ih =>
    by_cases h : c.primaryArgSpec.key = cmd.primaryArgSpec.key
    · simp [insertCommand, h]
    · simp only [insertCommand, if_neg h, List.length_cons]
      omega

theorem registerCommand_ok_state {cl st2 : CommandLine} {hd : GoMap → Option GoErr}
    {specs : List String} (hreg : registerCommand cl hd specs = (st2, none)) :
    ∃ cmd, newCommand hd specs = .ok cmd ∧
      checkForDuplicateNames cl (some cmd) = none ∧
      st2.commands = cl.commands ++ [cmd] ∧
      st2.globalOptions = cl.globalOptions ∧
      st2.unnamedCmd =
        (if (cl.commands ++ [cmd]).length = 1 ∧ cmd.primaryArgSpec.unnamed then some cmd
         else none) := by
  unfold registerCommand at hreg
  split at hreg
  case h_1 e heq => simp at hreg
  case h_2 cmd heq =>
    split at hreg
    case h_1 e heq2 => simp at hreg
    case h_2 heq2 =>
      have hfresh := (checkForDuplicateNames_ok_key_fresh heq2).2
      have hins := insertCommand_fresh hfresh
      dsimp only at hreg
      injection hreg with hst _
      subst hst
      exact ⟨cmd, heq, heq2, by simp [hins], rfl, by rw [show ({ commands := insertCommand cl.commands cmd, unnamedCmd := if (insertCommand cl.commands cmd).length = 1 ∧ cmd.primaryArgSpec.unnamed then some cmd else none, globalOptions := cl.globalOptions } : CommandLine).unnamedCmd = if (insertCommand cl.commands cmd).length = 1 ∧ cmd.primaryArgSpec.unnamed then some cmd else none from rfl, hins]⟩

theorem registerCommand_panic_state {cl : CommandLine} {hd : GoMap → Option GoErr}
    {specs : List String} {e : GoErr}
    (h : (registerCommand cl hd specs).2 = some e) :
    (registerCommand cl hd specs).1 = cl := by
  unfold registerCommand at h ⊢
  cases hc : newCommand hd specs with
  | error e2 => rfl
  | ok cmd =>
    rw [hc] at h
    dsimp only at h ⊢
    cases hchk : checkForDuplicateNames cl (some cmd) with
    | some e2 => rfl
    | none => rw [hchk] at h; dsimp only at h; exact absurd h (by simp)

theorem registerCommand_ok_fields {cl : CommandLine} {hd : GoMap → Option GoErr}
    {specs : List String}
    (hnone : (registerCommand cl hd specs).2 = none) :
    ∃ cmd, newCommand hd specs = .ok cmd ∧
      checkForDuplicateNames cl (some cmd) = none ∧
      (registerCommand cl hd specs).1.commands = cl.commands ++ [cmd] ∧
      (registerCommand cl hd specs).1.globalOptions = cl.globalOptions ∧
      (registerCommand cl hd specs).1.unnamedCmd =
        (if (cl.commands ++ [cmd]).length = 1 ∧ cmd.primaryArgSpec.unnamed then some cmd
         else none) := by
  unfold registerCommand at hnone ⊢
  cases hc : newCommand hd specs with
  | error e2 => rw [hc] at hnone; exact absurd hnone (by simp)
  | ok cmd =>
    rw [hc] at hnone
    dsimp only at hnone ⊢
    cases hchk : checkForDuplicateNames cl (some cmd) with
    | some e2 => rw [hchk] at hnone; exact absurd hnone (by simp)
    | none =>
      have hfresh := (checkForDuplicateNames_ok_key_fresh hchk).2
      have hins := insertCommand_fresh hfresh
      dsimp only
      exact ⟨cmd, rfl, hchk, by rw [hins], rfl, by rw [hins]⟩

theorem registerGlobalOption_keeps_commands (cl : CommandLine)
    (hd : GoMap → Option GoErr) (spec : String) :
    (registerGlobalOption cl hd spec).1.commands = cl.commands ∧
    (registerGlobalOption cl hd spec).1.unnamedCmd = cl.unnamedCmd := by
  unfold registerGlobalOption
  cases hg : newGlobalOption hd spec with
  | error e => exact ⟨rfl, rfl⟩
  | ok g => exact ⟨rfl, rfl⟩

/-- Registration operations, for quantifying over arbitrary later
registration sequences on a registry. -/
inductive RegOp where
  | regCmd (handler : GoMap → Option GoErr) (specList : List String)
  | regGlobal (handler : GoMap → Option GoErr) (spec : String)

/-- The registry state after one registration call (panics recovered, as
in the library's own tests). -/
def applyRegOp (cl : CommandLine) (op : RegOp) : CommandLine :=
  match op with
  | .regCmd hd specs => (registerCommand cl hd specs).1
  | .regGlobal hd spec => (registerGlobalOption cl hd spec).1

def applyRegOps (cl : CommandLine) (ops : List RegOp) : CommandLine :=
  ops.foldl applyRegOp cl

theorem applyRegOp_preserves {cl : CommandLine}
    (h2 : 2 ≤ cl.commands.length) (hu : cl.unnamedCmd = none) (op : RegOp) :
    2 ≤ (applyRegOp cl op).commands.length ∧ (applyRegOp cl op).unnamedCmd = none := by
  cases op with
  | regGlobal hd spec =>
    have h := registerGlobalOption_keeps_commands cl hd spec
    simp only [applyRegOp]
    rw [h.1, h.2]
    exact ⟨h2, hu⟩
  | regCmd hd specs =>
    simp only [applyRegOp]
    cases hout : (registerCommand cl hd specs).2 with
    | some e =>
      rw [registerCommand_panic_state hout]
      exact ⟨h2, hu⟩
    | none =>
      obtain ⟨cmd, _, _, hcomm, _, hun⟩ := registerCommand_ok_fields hout
      have hne : ¬ ((cl.commands ++ [cmd]).length = 1 ∧ cmd.primaryArgSpec.unnamed = true) := by
        simp only [List.length_append, List.length_singleton]
        intro hcon
        omega
      rw [hcomm, hun]
      constructor
      · simp
        omega
      · rw [if_neg hne]

theorem applyRegOps_preserves {cl : CommandLine} (ops : List RegOp)
    (h2 : 2 ≤ cl.commands.length) (hu : cl.unnamedCmd = none) :
    2 ≤ (applyRegOps cl ops).commands.length ∧ (applyRegOps cl ops).unnamedCmd = none := by
  induction ops generalizing cl with
  | nil => exact ⟨h2, hu⟩
  | cons op rest ih =>
    have h := applyRegOp_preserves h2 hu op
    exact ih h.1 h.2

theorem process_empty_commandArgs {cl : CommandLine} {args : List String}
    {queue : List (GlobalOption × GoMap)}
    (hne : cl.commands.isEmpty = false)
    (hu : cl.unnamedCmd = none)
    (hscan : globalScan cl (args.length + 1) args [] [] = .ok (queue, []))
    (hrun : runGlobalOptions queue = none) :
    process cl args = .failed (.cmdLineErr "A command is required") := by
  unfold process
  rw [hne, hscan]
  dsimp only
  rw [hrun, hu]
  rfl


theorem findGlobalOption_insert (l : List GlobalOption) (g : GlobalOption) :
    findGlobalOption (insertGlobalOption l g) g.argSpec.key = some g := by
  induction l with
  | nil => simp [insertGlobalOption, findGlobalOption, List.find?]
  | cons g0 t ih =>
    by_cases h : g0.argSpec.key = g.argSpec.key
    · simp [insertGlobalOption, h, findGlobalOption, List.find?]
    · simp only [insertGlobalOption, if_neg h]
      simp only [findGlobalOption, List.find?] at ih ⊢
      simp only [show (g0.argSpec.key = g.argSpec.key) = False from eq_false h, decide_False]
      exact ih

/-! ## Concrete sample registries used by witnesses and counterexamples -/

/-- A handler that accepts every invocation (the tests' common shape). -/
def sampleHandler : GoMap → Option GoErr := fun _ => none

def clTestOnly : CommandLine := (registerCommand newCommandLine sampleHandler ["test"]).1

/-- The ArgSpec compiled from the spec text "test". -/
def asTestGlobal : ArgSpec :=
  { key := "test", unnamed := false, optional := false, valuesDelim := none,
    valueDelim := none, valueSpecs := [], multiValue := false, helpText := "" }

def gTest : GlobalOption := { handler := sampleHandler, argSpec := asTestGlobal }

/-- Registry after registering the unnamed command "~". -/
def stC4a : CommandLine := (registerCommand newCommandLine sampleHandler ["~"]).1

/-- Registry after registering "~" and then a second command "second". -/
def stC4 : CommandLine := (registerCommand stC4a sampleHandler ["second"]).1

/-! ## Claim C9 -/

/-- C9: calling Process on a CommandLine with zero registered commands
panics with "a command option is required" for every argv, instead of
returning a recoverable error. -/
theorem c9_process_without_commands_panics (unnamed : Option Command)
    (globalOpts : List GlobalOption) (args : List String) :
    process { commands := [], unnamedCmd := unnamed, globalOptions := globalOpts } args
      = .panicked (.goError "a command option is required") := rfl

/-! ## Claim C10 -/

/-- C10: RegisterGlobalOption inserts the compiled global option into the
registry before running the duplicate-name check, so when the check panics
on a name collision the registry already holds the new global option
(registration is not atomic on this error); RegisterCommand instead checks
before inserting, leaving the registry unchanged on a panic. -/
theorem c10_registration_mutation_order
    (cl : CommandLine) (hd : GoMap → Option GoErr) (spec : String)
    (g : GlobalOption) (e : GoErr)
    (hg : newGlobalOption hd spec = .ok g)
    (hchk : checkForDuplicateNames
      { commands := cl.commands, unnamedCmd := cl.unnamedCmd,
        globalOptions := insertGlobalOption cl.globalOptions g } none = some e) :
    (registerGlobalOption cl hd spec
        = ({ commands := cl.commands, unnamedCmd := cl.unnamedCmd,
             globalOptions := insertGlobalOption cl.globalOptions g }, some e)
      ∧ findGlobalOption (registerGlobalOption cl hd spec).1.globalOptions g.argSpec.key
          = some g)
    ∧ ∀ (specs : List String) (e2 : GoErr),
        (registerCommand cl hd specs).2 = some e2 →
        (registerCommand cl hd specs).1 = cl := by
  have hmut : registerGlobalOption cl hd spec
      = ({ commands := cl.commands, unnamedCmd := cl.unnamedCmd,
           globalOptions := insertGlobalOption cl.globalOptions g }, some e) := by
    unfold registerGlobalOption
    rw [hg]
    dsimp only
    rw [hchk]
  refine ⟨⟨hmut, ?_⟩, fun specs e2 h => registerCommand_panic_state h⟩
  rw [hmut]
  exact findGlobalOption_insert cl.globalOptions g

/-- C10 witness: with the single command "test" registered, registering a
global option "test" panics on the collision, yet the mutated registry
already contains the global option. -/
theorem c10_witness :
    newGlobalOption sampleHandler "test" = .ok gTest ∧
    registerGlobalOption clTestOnly sampleHandler "test"
      = ({ commands := clTestOnly.commands, unnamedCmd := clTestOnly.unnamedCmd,
           globalOptions := insertGlobalOption clTestOnly.globalOptions gTest },
         some (.goError (basePanic ++ "unique argument \"test\""))) ∧
    findGlobalOption (registerGlobalOption clTestOnly sampleHandler "test").1.globalOptions
      gTest.argSpec.key = some gTest := by
  have h := c10_registration_mutation_order clTestOnly sampleHandler "test" gTest
    (.goError (basePanic ++ "unique argument \"test\"")) rfl rfl
  exact ⟨rfl, h.1.1, h.1.2⟩

/-! ## Claim C4 -/

/-- C4 counterexample: the error actually returned is "A command is
required" (capital A), so the claim's quoted message "a command is
required" does not match the code. -/
theorem c4_counterexample :
    process stC4 [] = .failed (.cmdLineErr "A command is required") ∧
    GoErr.cmdLineErr "A command is required" ≠ .cmdLineErr "a command is required" :=
  ⟨rfl, by decide⟩

/-- C4 (amended): after an unnamed command (or any first command) and then
any second command have been successfully registered, every later
registration sequence leaves unnamed-invocation mode disabled, and Process
on an argv that is empty after global-option stripping (with the queued
global handlers succeeding) fails with the error "A command is required"
rather than selecting the previously registered unnamed command. -/
theorem c4_unnamed_mode_permanently_disabled
    (h1 h2 : GoMap → Option GoErr) (spec1 specs2 : List String)
    (st1 st2 : CommandLine)
    (hst1 : registerCommand newCommandLine h1 spec1 = (st1, none))
    (hst2 : registerCommand st1 h2 specs2 = (st2, none))
    (ops : List RegOp) :
    (applyRegOps st2 ops).unnamedCmd = none ∧
    ∀ args queue,
      globalScan (applyRegOps st2 ops) (args.length + 1) args [] [] = .ok (queue, []) →
      runGlobalOptions queue = none →
      process (applyRegOps st2 ops) args = .failed (.cmdLineErr "A command is required") := by
  have h1snd := congrArg Prod.snd hst1
  have h1fst := congrArg Prod.fst hst1
  have h2snd := congrArg Prod.snd hst2
  have h2fst := congrArg Prod.fst hst2
  obtain ⟨cmd1, _, _, hcomm1, _, _⟩ := registerCommand_ok_fields h1snd
  obtain ⟨cmd2, _, _, hcomm2, _, hun2⟩ := registerCommand_ok_fields h2snd
  rw [h1fst] at hcomm1
  rw [h2fst] at hcomm2 hun2
  have hst1nil : newCommandLine.commands = [] := rfl
  rw [hst1nil, List.nil_append] at hcomm1
  have hlen2 : 2 ≤ st2.commands.length := by
    rw [hcomm2, hcomm1]
    simp
  have hu : st2.unnamedCmd = none := by
    rw [hun2]
    have hne : ¬ ((st1.commands ++ [cmd2]).length = 1 ∧ cmd2.primaryArgSpec.unnamed = true) := by
      rw [hcomm1]
      simp
    rw [if_neg hne]
  obtain ⟨hlen, hun⟩ := applyRegOps_preserves ops hlen2 hu
  refine ⟨hun, ?_⟩
  intro args queue hscan hrun
  have hne2 : (applyRegOps st2 ops).commands.isEmpty = false := by
    cases hcc : (applyRegOps st2 ops).commands with
    | nil => rw [hcc] at hlen; simp at hlen
    | cons a b => rfl
  exact process_empty_commandArgs hne2 hun hscan hrun

/-- C4 witness: the concrete registry built by registering "~" and then
"second", with no further registrations and the empty argv. -/
theorem c4_witness :
    registerCommand newCommandLine sampleHandler ["~"] = (stC4a, none) ∧
    registerCommand stC4a sampleHandler ["second"] = (stC4, none) ∧
    (applyRegOps stC4 []).unnamedCmd = none ∧
    process (applyRegOps stC4 []) [] = .failed (.cmdLineErr "A command is required") := by
  have h := c4_unnamed_mode_permanently_disabled sampleHandler sampleHandler
    ["~"] ["second"] stC4a stC4 rfl rfl []
  exact ⟨rfl, rfl, h.1, h.2 [] [] rfl rfl⟩

/-! ## Claim C2 -/

/-- Registry with the single command "test:<string-arg>" registered. -/
def clC2a : CommandLine :=
  (registerCommand newCommandLine sampleHandler ["test:<string-arg>"]).1

/-- C2 counterexample: the value name "arg" is already used inside the
registered command "test", yet registering the different command "test2"
whose value spec is also named "arg" does not panic and both commands end
up registered (the library's own TestAllowedDuplicate expects this). -/
theorem c2_counterexample :
    clC2a.commands.map (fun c => c.primaryArgSpec.valueSpecs.map (fun vs => vs.optionName))
      = [["arg"]] ∧
    (registerCommand clC2a sampleHandler ["test2:<string-arg>"]).2 = none ∧
    (registerCommand clC2a sampleHandler ["test2:<string-arg>"]).1.commands.map
        (fun c => c.primaryArgSpec.valueSpecs.map (fun vs => vs.optionName))
      = [["arg"], ["arg"]] :=
  ⟨rfl, rfl, rfl⟩

/-- C2 (amended): registering a command whose primary key equals an
existing command key or global option key panics, and it panics before
the new command is added (the registry is unchanged); but value/option
names are only checked for uniqueness within one command against the
global-option/primary-key namespace, so a value name nested inside a
previously registered different command does not collide — the concrete
"test"/"test2" registration with the shared value name "arg" succeeds. -/
theorem c2_name_collision_scope :
    (∀ (cl : CommandLine) (hd : GoMap → Option GoErr) (specs : List String) (cmd : Command),
      newCommand hd specs = .ok cmd →
      (cmd.primaryArgSpec.key ∈ cl.commands.map (fun c => c.primaryArgSpec.key) ∨
       cmd.primaryArgSpec.key ∈ cl.globalOptions.map (fun g => g.argSpec.key)) →
      (∃ e, (registerCommand cl hd specs).2 = some e) ∧
        (registerCommand cl hd specs).1 = cl) ∧
    (registerCommand clC2a sampleHandler ["test2:<string-arg>"]).2 = none := by
  refine ⟨?_, rfl⟩
  intro cl hd specs cmd hc hk
  cases hchk : checkForDuplicateNames cl (some cmd) with
  | none =>
    have hf := checkForDuplicateNames_ok_key_fresh hchk
    cases hk with
    | inl h => exact absurd h hf.2
    | inr h => exact absurd h hf.1
  | some e =>
    have hreg : registerCommand cl hd specs = (cl, some e) := by
      unfold registerCommand
      rw [hc]
      dsimp only
      rw [hchk]
    rw [hreg]
    exact ⟨⟨e, rfl⟩, rfl⟩

/-- The Command compiled from the single spec "test". -/
def cmdTest : Command :=
  { handler := sampleHandler, primaryArgSpec := asTestGlobal, optionSpecs := [] }

/-- C2 witness: registering a second command with the primary key "test"
into the registry that already has command "test" panics and leaves the
registry unchanged. -/
theorem c2_witness :
    newCommand sampleHandler ["test"] = .ok cmdTest ∧
    "test" ∈ clC2a.commands.map (fun c => c.primaryArgSpec.key) ∧
    ((∃ e, (registerCommand clC2a sampleHandler ["test"]).2 = some e) ∧
      (registerCommand clC2a sampleHandler ["test"]).1 = clC2a) := by
  refine ⟨rfl, by decide, ?_⟩
  exact c2_name_collision_scope.1 clC2a sampleHandler ["test"] cmdTest rfl (Or.inl (by decide))

theorem goStrLess_asymm {a b : List Char} (h : goStrLess a b = true) :
    goStrLess b a = false := by
  induction a generalizing b with
  | nil =>
    cases b with
    | nil => simp [goStrLess] at h
    | cons y ys => simp [goStrLess]
  | cons x xs ih =>
    cases b with
    | nil => simp [goStrLess] at h
    | cons y ys =>
      simp only [goStrLess] at h ⊢
      by_cases hxy : x < y
      · rw [if_neg (lt_asymm hxy), if_pos hxy]
      · by_cases hyx : y < x
        · rw [if_neg hxy, if_pos hyx] at h
          exact absurd h (by simp)
        · rw [if_neg hxy, if_neg hyx] at h
          rw [if_neg hyx, if_neg hxy]
          exact ih h

theorem goStrLess_trans {a b c : List Char} (hab : goStrLess a b = true)
    (hbc : goStrLess b c = true) : goStrLess a c = true := by
  induction a generalizing b c with
  | nil =>
    cases c with
    | nil =>
      cases b with
      | nil => simp [goStrLess] at hab
      | cons y ys => simp [goStrLess] at hbc
    | cons z zs => simp [goStrLess]
  | cons x xs ih =>
    cases b with
    | nil => simp [goStrLess] at hab
    | cons y ys =>
      cases c with
      | nil => simp [goStrLess] at hbc
      | cons z zs =>
        simp only [goStrLess] at hab hbc ⊢
        by_cases hxy : x < y <;> by_cases hyz : y < z
        · rw [if_pos (lt_trans hxy hyz)]
        · rw [if_pos hxy] at hab
          by_cases hzy : z < y
          · rw [if_neg hyz, if_pos hzy] at hbc
            simp at hbc
          · have hyz2 : y = z := le_antisymm (le_of_not_lt hzy) (le_of_not_lt hyz)
            subst hyz2
            rw [if_pos hxy]
        · by_cases hyx : y < x
          · rw [if_neg hxy, if_pos hyx] at hab
            simp at hab
          · have hxy2 : x = y := le_antisymm (le_of_not_lt hyx) (le_of_not_lt hxy)
            subst hxy2
            rw [if_pos hyz]
        · by_cases hyx : y < x
          · rw [if_neg hxy, if_pos hyx] at hab
            simp at hab
          · by_cases hzy : z < y
            · rw [if_neg hyz, if_pos hzy] at hbc
              simp at hbc
            · have hxy2 : x = y := le_antisymm (le_of_not_lt hyx) (le_of_not_lt hxy)
              have hyz2 : y = z := le_antisymm (le_of_not_lt hzy) (le_of_not_lt hyz)
              subst hxy2; subst hyz2
              rw [if_neg hxy, if_neg hxy] at hab ⊢
              rw [if_neg hyz, if_neg hyz] at hbc
              exact ih hab hbc

theorem insertSorted_perm (x : String) (l : List String) :
    (insertSorted x l).Perm (x :: l) := by
  induction l with
  | nil => simp [insertSorted]
  | cons y t ih =>
    by_cases h : goStrLess x.data y.data
    · simp [insertSorted, h]
    · simp only [insertSorted, if_neg h]
      exact (List.Perm.cons y ih).trans (List.Perm.swap x y t)

theorem mem_insertSorted {x w : String} {l : List String}
    (h : w ∈ insertSorted x l) : w = x ∨ w ∈ l := by
  have h2 := (insertSorted_perm x l).mem_iff.mp h
  simpa using h2

def goStrLe (a b : String) : Prop := goStrLess b.data a.data = false

theorem goStrLe_of_not_less {x y : String} (h : ¬ goStrLess x.data y.data = true) :
    goStrLe y x := by
  unfold goStrLe
  cases h2 : goStrLess x.data y.data with
  | false => rfl
  | true => exact absurd h2 h

theorem insertSorted_pairwise {x : String} {l : List String}
    (h : l.Pairwise goStrLe) : (insertSorted x l).Pairwise goStrLe := by
  induction l with
  | nil => simp [insertSorted]
  | cons y t ih =>
    rcases List.pairwise_cons.mp h with ⟨hy, ht⟩
    by_cases hlt : goStrLess x.data y.data
    · simp only [insertSorted, if_pos hlt]
      refine List.pairwise_cons.mpr ⟨?_, h⟩
      intro w hw
      rcases List.mem_cons.mp hw with hwy | hwt
      · subst hwy
        unfold goStrLe
        exact goStrLess_asymm hlt
      · unfold goStrLe
        cases hxw : goStrLess w.data x.data with
        | false => rfl
        | true =>
          have hwx := goStrLess_trans hxw hlt
          have hle := hy w hwt
          unfold goStrLe at hle
          rw [hwx] at hle
          exact absurd hle (by simp)
    · simp only [insertSorted, if_neg hlt]
      refine List.pairwise_cons.mpr ⟨?_, ih ht⟩
      intro w hw
      rcases mem_insertSorted hw with hwx | hwt
      · subst hwx
        exact goStrLe_of_not_less hlt
      · exact hy w hwt

theorem goSortStrings_perm (l : List String) : (goSortStrings l).Perm l := by
  induction l with
  | nil => simp [goSortStrings]
  | cons x t ih =>
    show (insertSorted x (goSortStrings t)).Perm (x :: t)
    exact (insertSorted_perm x (goSortStrings t)).trans (List.Perm.cons x ih)

theorem goSortStrings_pairwise (l : List String) :
    (goSortStrings l).Pairwise goStrLe := by
  induction l with
  | nil => simp [goSortStrings]
  | cons x t ih =>
    exact insertSorted_pairwise ih

/-! ## Claim C5 -/

/-- Registry with command "test" and required options "-b" then "-a"
registered in that order. -/
def clC5 : CommandLine :=
  (registerCommand newCommandLine sampleHandler ["test", "-b", "-a"]).1

/-- C5 counterexample: the option specs are registered in the order
["-b", "-a"], but the missing-required error enumerates them as
"[-a -b]" — ascending sorted order, not the stable insertion order
"[-b -a]" the claim asserts. -/
theorem c5_counterexample :
    clC5.commands.map (fun c => c.optionSpecs.map (fun os => os.key)) = [["-b", "-a"]] ∧
    process clC5 ["test"] = .failed (.cmdLineErr "Arguments required: [-a -b]") ∧
    ("Arguments required: [-a -b]" : String)
      ≠ "Arguments required: " ++ goSliceFmt ["-b", "-a"] :=
  ⟨rfl, rfl, by decide⟩

/-- C5 (amended): when required options are missing after the option scan,
Process fails with an error enumerating all missing required option keys
in ascending lexicographic (byte) order — sort.Strings order — not in
registration order. -/
theorem c5_missing_required_sorted
    (cmd : Command) (pv : Option String) (base : Nat) (cmdArgs : List String)
    (values values2 : GoMap) (used : Nat) (req2 : List String)
    (hp : cmd.primaryArgSpec.parse [] pv (cmdArgs.drop base) = .ok (values, used))
    (hs : optionScan cmd ((cmdArgs.drop (base + used)).length + 1)
        (cmdArgs.drop (base + used)) values
        (cmd.optionSpecs.filterMap (fun os => if ¬ os.optional then some os.key else none))
        = .ok (values2, req2))
    (hne : req2 ≠ []) :
    processCommandPhase cmd pv base cmdArgs
      = .failed (.cmdLineErr ("Arguments required: " ++ goSliceFmt (goSortStrings req2)))
    ∧ (goSortStrings req2).Perm req2
    ∧ (goSortStrings req2).Pairwise goStrLe := by
  refine ⟨?_, goSortStrings_perm req2, goSortStrings_pairwise req2⟩
  unfold processCommandPhase
  rw [hp]
  dsimp only
  rw [hs]
  dsimp only
  rw [if_pos hne]

/-- The ArgSpec compiled from "-b". -/
def asB5 : ArgSpec :=
  { key := "-b", unnamed := false, optional := false, valuesDelim := none,
    valueDelim := none, valueSpecs := [], multiValue := false, helpText := "" }

/-- The ArgSpec compiled from "-a". -/
def asA5 : ArgSpec :=
  { key := "-a", unnamed := false, optional := false, valuesDelim := none,
    valueDelim := none, valueSpecs := [], multiValue := false, helpText := "" }

/-- The Command compiled from ["test", "-b", "-a"]. -/
def cmdC5 : Command :=
  { handler := sampleHandler, primaryArgSpec := asTestGlobal, optionSpecs := [asB5, asA5] }

/-- C5 witness: the concrete command with required options "-b", "-a" and
the argv ["test"]; the missing keys come out sorted as [-a -b]. -/
theorem c5_witness :
    cmdC5.primaryArgSpec.parse [] none ((["test"] : List String).drop 1)
      = .ok ([("test", .vBool true)], 0) ∧
    (["-b", "-a"] : List String) ≠ [] ∧
    processCommandPhase cmdC5 none 1 ["test"]
      = .failed (.cmdLineErr "Arguments required: [-a -b]") := by
  have h := c5_missing_required_sorted cmdC5 none 1 ["test"]
    [("test", .vBool true)] [("test", .vBool true)] 0 ["-b", "-a"] rfl rfl (by decide)
  exact ⟨rfl, by decide, h.1⟩

theorem goMapGet_fold_not_mem {t : List ArgValueSpec} {k : String}
    (h : k ∉ t.map (fun vs => vs.optionName)) (m : GoMap) :
    goMapGet (t.foldl (fun m2 vs2 => goMapInsert m2 vs2.optionName vs2.defaultValue) m) k
      = goMapGet m k := by
  induction t generalizing m with
  | nil => rfl
  | cons v t2 ih =>
    simp only [List.map_cons, List.mem_cons] at h
    push_neg at h
    simp only [List.foldl_cons]
    rw [ih h.2, goMapGet_insert, if_neg h.1]

theorem goMapGet_defaults_fold {specs : List ArgValueSpec} {m : GoMap}
    (hnd : (specs.map (fun vs => vs.optionName)).Nodup) :
    ∀ vs ∈ specs,
      goMapGet
        (specs.foldl (fun m2 vs2 => goMapInsert m2 vs2.optionName vs2.defaultValue) m)
        vs.optionName = some vs.defaultValue := by
  induction specs generalizing m with
  | nil => simp
  | cons v t ih =>
    intro vs hvs
    simp only [List.foldl_cons]
    rcases List.mem_cons.mp hvs with hv | ht
    · subst hv
      have hnotin : vs.optionName ∉ t.map (fun vs2 => vs2.optionName) := by
        simpa using (List.nodup_cons.mp hnd).1
      rw [goMapGet_fold_not_mem hnotin, goMapGet_insert]
      simp
    · exact ih (List.nodup_cons.mp hnd).2 vs ht

/-! ## Claim C8 -/

/-- The ArgSpec compiled from "-x:<bool-v1>[,<bool-v2>]" (first value
required). -/
def asXreq : ArgSpec :=
  { key := "-x", unnamed := false, optional := false, valuesDelim := some ':',
    valueDelim := some ',',
    valueSpecs :=
      [ { argIndex := 0, optionName := "v1", optional := false, multi := false,
          defaultValue := .vBool false },
        { argIndex := 0, optionName := "v2", optional := true, multi := false,
          defaultValue := .vBool false } ],
    multiValue := false, helpText := "" }

/-- C8 counterexample: the binding error is "Required value v1 is missing"
with a capital R, so the claim's quoted message "required value v1 is
missing" does not match the code; the behavior itself holds. -/
theorem c8_counterexample :
    newArgSpec "-x:<bool-v1>[,<bool-v2>]" false = .ok asXreq ∧
    asXreq.parse [] none [] = .error (.cmdLineErr "Required value v1 is missing") ∧
    ("Required value v1 is missing" : String) ≠ "required value v1 is missing" :=
  ⟨rfl, rfl, by decide⟩

/-- C8 (amended): when an ArgSpec with at least one value spec is bound
with no inline colon value and no consumable following token, then: if
the first value spec is required, binding fails with the error "Required
value <name> is missing" naming that value spec; if the first value spec
is optional, binding succeeds, the key is recorded, and every value spec
is bound to its type default. -/
theorem c8_no_input_binding
    (as : ArgSpec) (eff : GoMap) (subs : List String)
    (vs0 : ArgValueSpec) (rest : List ArgValueSpec)
    (hvs : as.valueSpecs = vs0 :: rest)
    (hno : as.valuesDelim ≠ some ' ' ∨ subs = []
         ∨ ∃ a t, subs = a :: t ∧ goHasPrefix a "-" = true)
    (hnodup : (as.valueSpecs.map (fun vs => vs.optionName)).Nodup)
    (hkey : as.key ∉ as.valueSpecs.map (fun vs => vs.optionName)) :
    (vs0.optional = false →
      as.parse eff none subs
        = .error (.cmdLineErr ("Required value " ++ vs0.optionName ++ " is missing")))
    ∧ (vs0.optional = true →
      ∃ m, as.parse eff none subs = .ok (m, 0) ∧
        goMapGet m as.key = some (.vBool true) ∧
        ∀ vs ∈ as.valueSpecs, goMapGet m vs.optionName = some vs.defaultValue) := by
  have hinput : (match (none : Option String) with
      | some v => (some v, 0)
      | none =>
        if as.valuesDelim = some ' ' then
          match subs with
          | a :: _ => if ¬ goHasPrefix a "-" then (some a, 1) else (none, 0)
          | [] => ((none : Option String), 0)
        else ((none : Option String), 0)) = ((none : Option String), 0) := by
    rcases hno with hd | hs | ⟨a, t, hat, hpre⟩
    · rw [if_neg hd]
    · subst hs
      by_cases hd : as.valuesDelim = some ' '
      · rw [if_pos hd]
      · rw [if_neg hd]
    · subst hat
      by_cases hd : as.valuesDelim = some ' '
      · rw [if_pos hd]
        dsimp only
        rw [hpre]
        simp
      · rw [if_neg hd]
  unfold ArgSpec.parse
  rw [hinput]
  dsimp only
  rw [hvs]
  constructor
  · intro hopt
    simp [hopt]
  · intro hopt
    refine ⟨goMapInsert
      ((vs0 :: rest).foldl (fun m vs => goMapInsert m vs.optionName vs.defaultValue) eff)
      as.key (.vBool true), ?_, ?_, ?_⟩
    · simp [hopt]
    · rw [goMapGet_insert]
      simp
    · intro vs hvsmem
      rw [goMapGet_insert]
      rw [hvs] at hkey hnodup
      have hne : vs.optionName ≠ as.key := by
        intro heq
        rw [← heq] at hkey
        exact hkey (List.mem_map.mpr ⟨vs, hvsmem, rfl⟩)
      rw [if_neg hne]
      exact goMapGet_defaults_fold hnodup vs hvsmem

def vsXv1 : ArgValueSpec :=
  { argIndex := 0, optionName := "v1", optional := true, multi := false,
    defaultValue := .vBool false }

def vsXv2 : ArgValueSpec :=
  { argIndex := 0, optionName := "v2", optional := true, multi := false,
    defaultValue := .vBool false }

/-- The ArgSpec compiled from "-x[:<bool-v1>][,<bool-v2>]" (both values
optional). -/
def asXopt : ArgSpec :=
  { key := "-x", unnamed := false, optional := false, valuesDelim := some ':',
    valueDelim := some ',', valueSpecs := [vsXv1, vsXv2], multiValue := false,
    helpText := "" }

/-- C8 witness: the bare option -x on the all-optional spec binds
v1 = false and v2 = false (the bool type defaults) and records the key. -/
theorem c8_witness :
    newArgSpec "-x[:<bool-v1>][,<bool-v2>]" false = .ok asXopt ∧
    ∃ m, asXopt.parse [] none [] = .ok (m, 0) ∧
      goMapGet m "-x" = some (.vBool true) ∧
      goMapGet m "v1" = some (.vBool false) ∧
      goMapGet m "v2" = some (.vBool false) := by
  have h := (c8_no_input_binding asXopt [] [] vsXv1 [vsXv2] rfl
    (Or.inr (Or.inl rfl)) (by decide) (by decide)).2 rfl
  obtain ⟨m, hm, hk, hall⟩ := h
  exact ⟨rfl, m, hm, hk, hall vsXv1 (by decide), hall vsXv2 (by decide)⟩

theorem storeArg_nonmulti {as : ArgSpec} {eff eff2 : GoMap} {spec : ArgValueSpec}
    {input : String} (hmv : as.multiValue = false) (hm : spec.multi = false)
    (h : storeArg as eff spec input = .ok eff2) :
    ∃ v, makeValue spec.argIndex input = .ok v
      ∧ eff2 = goMapInsert eff spec.optionName v := by
  unfold storeArg at h
  rw [hmv, hm] at h
  simp only [Bool.or_self, Bool.false_eq_true, if_false] at h
  obtain ⟨v, hv, h⟩ := exceptBind_ok h
  refine ⟨v, hv, ?_⟩
  simpa [pure, Except.pure] using h.symm

theorem storeArg_frame {as : ArgSpec} {eff eff2 : GoMap} {spec : ArgValueSpec}
    {input : String} {k : String}
    (h : storeArg as eff spec input = .ok eff2) (hk : k ≠ spec.optionName) :
    goMapGet eff2 k = goMapGet eff k := by
  unfold storeArg at h
  by_cases hb : (as.multiValue || spec.multi) = true
  · rw [if_pos hb] at h
    cases hget : goMapGet eff spec.optionName with
    | none =>
      rw [hget] at h
      dsimp only at h
      obtain ⟨l1, h1, h⟩ := exceptBind_ok h
      obtain ⟨l2, h2, h⟩ := exceptBind_ok h
      have he : eff2 = goMapInsert eff spec.optionName l2 := by
        simpa [pure, Except.pure] using h.symm
      rw [he, goMapGet_insert, if_neg hk]
    | some l0 =>
      rw [hget] at h
      dsimp only at h
      obtain ⟨l1, h1, h⟩ := exceptBind_ok h
      obtain ⟨l2, h2, h⟩ := exceptBind_ok h
      have he : eff2 = goMapInsert eff spec.optionName l2 := by
        simpa [pure, Except.pure] using h.symm
      rw [he, goMapGet_insert, if_neg hk]
  · rw [if_neg hb] at h
    obtain ⟨v, hv, h⟩ := exceptBind_ok h
    have he : eff2 = goMapInsert eff spec.optionName v := by
      simpa [pure, Except.pure] using h.symm
    rw [he, goMapGet_insert, if_neg hk]

theorem removeAbsorb_frame {as : ArgSpec} {vs : ArgValueSpec} {i : Nat} :
    ∀ {fuel : Nat} {values : List String} {eff : GoMap} {values2 : List String}
      {eff2 : GoMap},
    removeAbsorb as vs i fuel values eff = .ok (values2, eff2) →
    ∀ k, k ≠ vs.optionName → goMapGet eff2 k = goMapGet eff k := by
  intro fuel
  induction fuel with
  | zero =>
    intro values eff values2 eff2 h k hk
    simp only [removeAbsorb, Except.ok.injEq, Prod.mk.injEq] at h
    rw [← h.2]
  | succ fuel ih =>
    intro values eff values2 eff2 h k hk
    simp only [removeAbsorb] at h
    by_cases hge : i + 1 ≥ values.length
    · rw [if_pos hge] at h
      simp only [Except.ok.injEq, Prod.mk.injEq] at h
      rw [← h.2]
    · rw [if_neg hge] at h
      cases hv : values.get? (i + 1) with
      | none =>
        rw [hv] at h
        simp only [Except.ok.injEq, Prod.mk.injEq] at h
        rw [← h.2]
      | some value =>
        rw [hv] at h
        obtain ⟨eff3, h3, h⟩ := exceptBind_ok h
        rw [ih h k hk, storeArg_frame h3 hk]

theorem distributeValues_frame {as : ArgSpec} :
    ∀ {specs : List ArgValueSpec} {i : Nat} {values : List String} {eff m : GoMap}
      {k : String},
    distributeValues as specs i values eff = .ok m →
    k ∉ specs.map (fun vs => vs.optionName) →
    goMapGet m k = goMapGet eff k := by
  intro specs
  induction specs with
  | nil =>
    intro i values eff m k h hk
    simp only [distributeValues, Except.ok.injEq] at h
    rw [← h]
  | cons vs rest ih =>
    intro i values eff m k h hk
    simp only [List.map_cons, List.mem_cons] at hk
    push_neg at hk
    simp only [distributeValues] at h
    by_cases hge : i ≥ values.length
    · rw [if_pos hge] at h
      by_cases hd : as.valueDelim = some ','
      · rw [if_pos hd] at h
        cases hlast : values.getLast? with
        | none => rw [hlast] at h; exact absurd h (by simp)
        | some last =>
          rw [hlast] at h
          obtain ⟨eff3, h3, h⟩ := exceptBind_ok h
          rw [ih h hk.2, storeArg_frame h3 hk.1]
      · rw [if_neg hd] at h
        by_cases hopt : vs.optional = true
        · rw [if_pos hopt] at h
          simp only [Except.ok.injEq] at h
          rw [← h]
        · rw [if_neg hopt] at h
          exact absurd h (by simp)
    · rw [if_neg hge] at h
      cases hv : values.get? i with
      | none => rw [hv] at h; exact absurd h (by simp)
      | some vi =>
        rw [hv] at h
        obtain ⟨eff3, h3, h⟩ := exceptBind_ok h
        by_cases hmulti : vs.multi = true ∧ as.valuesDelim = some ' '
        · rw [if_pos hmulti] at h
          obtain ⟨pair, hp, h⟩ := exceptBind_ok h
          obtain ⟨values3, eff4⟩ := pair
          rw [ih h hk.2, removeAbsorb_frame hp k hk.1, storeArg_frame h3 hk.1]
        · rw [if_neg hmulti] at h
          rw [ih h hk.2, storeArg_frame h3 hk.1]

theorem distributeValues_reuse {as : ArgSpec}
    (hdelim : as.valueDelim = some ',') (hmv : as.multiValue = false) :
    ∀ (specs : List ArgValueSpec) (i : Nat) (values : List String) (eff m : GoMap),
    (∀ vs ∈ specs, vs.multi = false) →
    (specs.map (fun vs => vs.optionName)).Nodup →
    distributeValues as specs i values eff = .ok m →
    ∀ (j : Nat) (specj : ArgValueSpec), specs.get? j = some specj →
    values.length ≤ i + j →
    ∀ lv, values.getLast? = some lv →
    ∃ v, makeValue specj.argIndex lv = .ok v ∧
      goMapGet m specj.optionName = some v := by
  intro specs
  induction specs with
  | nil =>
    intro i values eff m _ _ _ j specj hget
    simp at hget
  | cons vs rest ih =>
    intro i values eff m hnm hnd h j specj hjget hlen lv hlast
    simp only [distributeValues] at h
    have hvmulti : vs.multi = false := hnm vs (List.mem_cons_self vs rest)
    have hnmrest : ∀ vs2 ∈ rest, vs2.multi = false :=
      fun vs2 hm => hnm vs2 (List.mem_cons_of_mem vs hm)
    have hnd2 : (vs.optionName :: rest.map (fun vs2 => vs2.optionName)).Nodup := by
      simpa using hnd
    have hndrest := (List.nodup_cons.mp hnd2).2
    have hnotmem : vs.optionName ∉ rest.map (fun vs2 => vs2.optionName) :=
      (List.nodup_cons.mp hnd2).1
    cases j with
    | zero =>
      have hspec : specj = vs := by simpa using hjget.symm
      subst hspec
      have hge : i ≥ values.length := by omega
      rw [if_pos hge, if_pos hdelim, hlast] at h
      obtain ⟨eff2, h2, h⟩ := exceptBind_ok h
      obtain ⟨v, hv, he⟩ := storeArg_nonmulti hmv hvmulti h2
      refine ⟨v, hv, ?_⟩
      rw [distributeValues_frame h hnotmem, he, goMapGet_insert, if_pos rfl]
    | succ j2 =>
      have hjget2 : rest.get? j2 = some specj := by simpa using hjget
      by_cases hge : i ≥ values.length
      · rw [if_pos hge, if_pos hdelim, hlast] at h
        obtain ⟨eff2, h2, h⟩ := exceptBind_ok h
        exact ih (i + 1) values eff2 m hnmrest hndrest h j2 specj hjget2
          (by omega) lv hlast
      · rw [if_neg hge] at h
        cases hv : values.get? i with
        | none =>
          rw [hv] at h
          exact absurd h (by simp)
        | some vi =>
          rw [hv] at h
          obtain ⟨eff2, h2, h⟩ := exceptBind_ok h
          have hne : ¬ (vs.multi = true ∧ as.valuesDelim = some ' ') := by
            intro hcon
            rw [hvmulti] at hcon
            exact absurd hcon.1 (by simp)
          rw [if_neg hne] at h
          exact ih (i + 1) values eff2 m hnmrest hndrest h j2 specj hjget2
            (by omega) lv hlast

/-! ## Claim C1 -/

/-- Registry with the single command "test:<string-flag1>,<string-flag2>". -/
def clC1 : CommandLine :=
  (registerCommand newCommandLine sampleHandler ["test:<string-flag1>,<string-flag2>"]).1

/-- C1 counterexample: with the colon-form spec, the claim's two-token
argv ["test", "first,second"] does not bind flag1/flag2 at all — Process
fails with "Required value flag1 is missing" (the colon form takes its
values only from the same token, "test:first,second"). -/
theorem c1_counterexample :
    process clC1 ["test", "first,second"]
      = .failed (.cmdLineErr "Required value flag1 is missing") ∧
    process clC1 ["test", "first"]
      = .failed (.cmdLineErr "Required value flag1 is missing") :=
  ⟨rfl, rfl⟩

/-- C1 (amended): for a compiled ArgSpec with value delimiter ',' and
distinctly named non-multi value specs, when binding an inline value that
splits into k comma values with k ≤ j, the value spec at position j is
bound to the converted last supplied value, not to its type default.  In
particular "test:<string-flag1>,<string-flag2>" invoked as
"test:first,second" yields flag1="first", flag2="second", and as
"test:first" yields flag1="first", flag2="first". -/
theorem c1_last_value_reuse
    (as : ArgSpec) (eff : GoMap) (inp : String) (subs : List String)
    (m : GoMap) (used : Nat)
    (vs0 vs1 : ArgValueSpec) (restSpecs : List ArgValueSpec)
    (hvs : as.valueSpecs = vs0 :: vs1 :: restSpecs)
    (hdelim : as.valueDelim = some ',')
    (hmv : as.multiValue = false)
    (hnm : ∀ vs ∈ as.valueSpecs, vs.multi = false)
    (hnodup : (as.valueSpecs.map (fun vs => vs.optionName)).Nodup)
    (hkey : as.key ∉ as.valueSpecs.map (fun vs => vs.optionName))
    (hok : as.parse eff (some inp) subs = .ok (m, used))
    (j : Nat) (specj : ArgValueSpec) (hjget : as.valueSpecs.get? j = some specj)
    (hge : (goSplit inp ",").length ≤ j)
    (lv : String) (hlast : (goSplit inp ",").getLast? = some lv) :
    ∃ v, makeValue specj.argIndex lv = .ok v ∧
      goMapGet m specj.optionName = some v := by
  unfold ArgSpec.parse at hok
  dsimp only at hok
  rw [hvs] at hok
  dsimp only at hok
  rw [if_pos hdelim] at hok
  obtain ⟨eff2, h2, hok⟩ := exceptBind_ok hok
  have hm : m = goMapInsert eff2 as.key (.vBool true) := by
    have hp := hok
    simp [pure, Except.pure] at hp
    exact hp.1.symm
  rw [hvs] at hnm hnodup hjget
  obtain ⟨v, hv, hget⟩ := distributeValues_reuse hdelim hmv (vs0 :: vs1 :: restSpecs) 0
    (goSplit inp ",") eff eff2 hnm hnodup h2 j specj hjget (by omega) lv hlast
  refine ⟨v, hv, ?_⟩
  rw [hm, goMapGet_insert, if_neg ?hne]
  · exact hget
  case hne =>
    intro heq
    rw [← heq] at hkey
    rw [hvs] at hkey
    exact hkey (List.mem_map.mpr ⟨specj, List.get?_mem hjget, rfl⟩)

def vsC1a : ArgValueSpec :=
  { argIndex := 3, optionName := "flag1", optional := false, multi := false,
    defaultValue := .vStr "" }

def vsC1b : ArgValueSpec :=
  { argIndex := 3, optionName := "flag2", optional := false, multi := false,
    defaultValue := .vStr "" }

/-- The ArgSpec compiled from "test:<string-flag1>,<string-flag2>". -/
def asC1 : ArgSpec :=
  { key := "test", unnamed := false, optional := false, valuesDelim := some ':',
    valueDelim := some ',', valueSpecs := [vsC1a, vsC1b], multiValue := false,
    helpText := "" }

/-- The Values mapping produced by binding asC1 against the single value
"first". -/
def mC1 : GoMap :=
  [("flag1", .vStr "first"), ("flag2", .vStr "first"), ("test", .vBool true)]

/-- C1 witness: the colon-form invocations of the example command, and
the general theorem applied at position 1 with the single supplied value
"first". -/
theorem c1_witness :
    newArgSpec "test:<string-flag1>,<string-flag2>" true = .ok asC1 ∧
    asC1.parse [] (some "first") [] = .ok (mC1, 0) ∧
    process clC1 ["test:first,second"]
      = .ran [("flag1", .vStr "first"), ("flag2", .vStr "second"), ("test", .vBool true)] none ∧
    process clC1 ["test:first"]
      = .ran [("flag1", .vStr "first"), ("flag2", .vStr "first"), ("test", .vBool true)] none ∧
    ∃ v, makeValue vsC1b.argIndex "first" = .ok v ∧
      goMapGet mC1 vsC1b.optionName = some v := by
  refine ⟨rfl, rfl, rfl, rfl, ?_⟩
  exact c1_last_value_reuse asC1 [] "first" [] mC1 0 vsC1a vsC1b [] rfl rfl rfl
    (by decide) (by decide) (by decide) rfl 1 vsC1b (by decide) (by decide) "first" rfl

/-! ## Claim C6 -/

/-- The claim's filtering predicate: case-insensitive substring match of
the filter against the literal key or the help text, for the spec itself
or any nested option spec. -/
def ciSubstr (hay needle : String) : Bool :=
  goContains (goToLower hay) (goToLower needle)

/-- Selection as the claim words it. -/
def claimedShown (primary : ArgSpec) (opts : List ArgSpec) (filter : String) : Bool :=
  ciSubstr primary.key filter || ciSubstr primary.helpText filter ||
  opts.any (fun o => ciSubstr o.key filter || ciSubstr o.helpText filter)

/-- The ArgSpec compiled from "Test" (capital T). -/
def asUp : ArgSpec :=
  { key := "Test", unnamed := false, optional := false, valuesDelim := none,
    valueDelim := none, valueSpecs := [], multiValue := false, helpText := "" }

/-- The Command compiled from the single spec "Test". -/
def cmdUp : Command :=
  { handler := sampleHandler, primaryArgSpec := asUp, optionSpecs := [] }

/-- C6 counterexample: the filter "Test" is trivially a case-insensitive
substring of the command key "Test", yet command selection (shouldShow on
the trimmed+lowercased filter, which compares the literal key
case-sensitively) rejects the command. -/
theorem c6_counterexample :
    newArgSpec "Test" true = .ok asUp ∧
    claimedShown asUp [] "Test" = true ∧
    commandShown cmdUp "Test" = false :=
  ⟨rfl, rfl, rfl⟩

/-- C6 (amended): help filtering selects a spec iff the trimmed filter is
empty, or the filter occurs in the literal primary key case-SENSITIVELY,
or occurs in the lowercased primary help text, or in a nested option's
lowercased key or lowercased help text; command selection first trims and
lowercases the filter, while global options are matched against the raw
filter. -/
theorem c6_filter_characterization :
    (∀ (primary : ArgSpec) (opts : Option (List ArgSpec)) (filter : String),
      shouldShow primary opts filter = true ↔
        ((goTrimSpace filter).length = 0 ∨
         goContains primary.key (goTrimSpace filter) = true ∨
         goContains (goToLower primary.helpText) (goTrimSpace filter) = true ∨
         (∃ l, opts = some l ∧ ∃ o ∈ l,
           goContains (goToLower o.key) (goTrimSpace filter) = true ∨
           goContains (goToLower o.helpText) (goTrimSpace filter) = true))) ∧
    (∀ (cmd : Command) (filter : String),
      commandShown cmd filter
        = shouldShow cmd.primaryArgSpec (some cmd.optionSpecs) (goToLower (goTrimSpace filter))) ∧
    (∀ (g : GlobalOption) (filter : String),
      globalOptionShown g filter = shouldShow g.argSpec none filter) := by
  refine ⟨?_, fun cmd filter => rfl, fun g filter => rfl⟩
  intro primary opts filter
  by_cases h0 : (goTrimSpace filter).length = 0
  · simp [shouldShow, h0]
  · by_cases h1 : goContains primary.key (goTrimSpace filter) = true
    · simp [shouldShow, h0, h1]
    · by_cases h2 : goContains (goToLower primary.helpText) (goTrimSpace filter) = true
      · simp [shouldShow, h0, h1, h2]
      · cases opts with
        | none => simp [shouldShow, h0, h1, h2]
        | some l => simp [shouldShow, h0, h1, h2, List.any_eq_true]

/-! ## Claim C3 -/

/-- The ArgSpec compiled from "-t:<string-val>". -/
def asTval : ArgSpec :=
  { key := "-t", unnamed := false, optional := false, valuesDelim := some ':',
    valueDelim := none,
    valueSpecs :=
      [ { argIndex := 3, optionName := "val", optional := false, multi := false,
          defaultValue := .vStr "" } ],
    multiValue := false, helpText := "" }

/-- C3 counterexample: the String serialization drops the value type
names ("-t:<string-val>" serializes as "-t:<val>"), and re-parsing that
text aborts with a template syntax error instead of round-tripping. -/
theorem c3_counterexample :
    newArgSpec "-t:<string-val>" false = .ok asTval ∧
    asTval.string = "-t:<val>" ∧
    newArgSpec asTval.string false
      = .error (.goError
          "command line template syntax error! expected '-' at \"val>\" of \"-t:<val>\"") :=
  ⟨rfl, rfl, rfl⟩

/-- The ArgSpec compiled from "-x". -/
def asXplain : ArgSpec :=
  { key := "-x", unnamed := false, optional := false, valuesDelim := none,
    valueDelim := none, valueSpecs := [], multiValue := false, helpText := "" }

/-- The ArgSpec compiled from "*[-x]". -/
def asXstar : ArgSpec :=
  { key := "-x", unnamed := false, optional := true, valuesDelim := none,
    valueDelim := none, valueSpecs := [], multiValue := true, helpText := "" }

/-- C3 (amended): the String serialization is for help display and omits
value type names, so serialize-then-re-parse fails for specs carrying
value specs (e.g. "-t:<string-val>" and the primary
"test:<string-flag1>,<string-flag2>"); for specs without value specs the
round trip reproduces the original text and an equal ArgSpec (e.g. "-x"
and "*[-x]"). -/
theorem c3_serialization_no_roundtrip :
    (newArgSpec "-x" false = .ok asXplain ∧ asXplain.string = "-x" ∧
      newArgSpec asXplain.string false = .ok asXplain) ∧
    (newArgSpec "*[-x]" false = .ok asXstar ∧ asXstar.string = "*[-x]" ∧
      newArgSpec asXstar.string false = .ok asXstar) ∧
    (newArgSpec "-t:<string-val>" false = .ok asTval ∧
      (∃ e, newArgSpec asTval.string false = .error e)) ∧
    (newArgSpec "test:<string-flag1>,<string-flag2>" true = .ok asC1 ∧
      asC1.string = "test:<flag1>,<flag2>" ∧
      (∃ e, newArgSpec asC1.string true = .error e)) :=
  ⟨⟨rfl, rfl, rfl⟩, ⟨rfl, rfl, rfl⟩, ⟨rfl, ⟨_, rfl⟩⟩, ⟨rfl, rfl, ⟨_, rfl⟩⟩⟩

/-! ## C7: the two-pass help renderer -/

/-- The length of goRepeat: n copies of s. -/
theorem goString_length_append (s t : String) : (s ++ t).length = s.length + t.length :=
  String.length_append s t

theorem foldl_append_length : ∀ (l : List String) (acc : String),
    (l.foldl (fun r s => r ++ s) acc).length = acc.length + (l.map String.length).sum
  | [], acc => by simp
  | x :: t, acc => by
    simp only [List.foldl_cons, List.map_cons, List.sum_cons]
    rw [foldl_append_length t (acc ++ x), goString_length_append]
    omega

theorem goRepeat_length (s : String) (n : Nat) : (goRepeat s n).length = n * s.length := by
  have h := foldl_append_length (List.replicate n s) ""
  simp only [List.map_replicate] at h
  simp [goRepeat, String.join, h, List.sum_replicate, smul_eq_mul]

/-- The widths 2*indent + len(str1) of the two-column queued lines, in
queue order: the quantities the river loop maximizes over. -/
def twoColWidths (queue : List HelpLine) : List Nat :=
  (queue.filter (fun l => decide (1 < l.cols))).map (fun l => 2 * l.indent + l.str1.length)

/-- Maximum of a list of naturals (0 when empty). -/
def listMax (l : List Nat) : Nat := l.foldl Nat.max 0

theorem le_foldl_max : ∀ (l : List Nat) (a : Nat), a ≤ l.foldl Nat.max a
  | [], a => le_refl a
  | x :: t, a => le_trans (Nat.le_max_left a x) (le_foldl_max t (Nat.max a x))

theorem nat_max_add (a b c : Nat) : Nat.max (a + c) (b + c) = Nat.max a b + c := by
  have h1 : Nat.max (a + c) (b + c) = if a + c ≤ b + c then b + c else a + c := Nat.max_def
  have h2 : Nat.max a b = if a ≤ b then b else a := Nat.max_def
  rw [h1, h2]
  by_cases h : a ≤ b
  · rw [if_pos (Nat.add_le_add_right h c), if_pos h]
  · rw [if_neg (fun hab => h (Nat.le_of_add_le_add_right hab)), if_neg h]

theorem nat_max_eq_right {a b : Nat} (h : a ≤ b) : Nat.max a b = b := by
  have hd : Nat.max a b = if a ≤ b then b else a := Nat.max_def
  rw [hd, if_pos h]

theorem nat_max_eq_left {a b : Nat} (h : b ≤ a) : Nat.max a b = a := by
  have hd : Nat.max a b = if a ≤ b then b else a := Nat.max_def
  rw [hd]
  by_cases hab : a ≤ b
  · rw [if_pos hab]; omega
  · rw [if_neg hab]

theorem nat_min_eq_left {a b : Nat} (h : a ≤ b) : Nat.min a b = a := by
  have hd : Nat.min a b = if a ≤ b then a else b := Nat.min_def
  rw [hd, if_pos h]

theorem nat_min_eq_right {a b : Nat} (h : b ≤ a) : Nat.min a b = b := by
  have hd : Nat.min a b = if a ≤ b then a else b := Nat.min_def
  rw [hd]
  by_cases hab : a ≤ b
  · rw [if_pos hab]; omega
  · rw [if_neg hab]

theorem foldl_max_map_add (c : Nat) : ∀ (l : List Nat) (a : Nat),
    (l.map (fun w => w + c)).foldl Nat.max (a + c) = l.foldl Nat.max a + c
  | [], _ => rfl
  | x :: t, a => by
    simp only [List.map_cons, List.foldl_cons]
    rw [nat_max_add, foldl_max_map_add c t (Nat.max a x)]

theorem riverLoop_acc : ∀ (queue : List HelpLine) (r : Nat),
    (∀ l ∈ queue, 1 < l.cols → 0 < 2 * l.indent + l.str1.length) →
    r ≤ maxRiver →
    riverLoop queue r =
      Nat.min maxRiver (((twoColWidths queue).map (fun w => w + riverSpaces)).foldl Nat.max r)
  | [], r => by
    intro _ hr
    simp only [riverLoop, twoColWidths, List.filter_nil, List.map_nil, List.foldl_nil]
    exact (nat_min_eq_right hr).symm
  | h :: t, r => by
    intro hpos hr
    have hpos' : ∀ l ∈ t, 1 < l.cols → 0 < 2 * l.indent + l.str1.length :=
      fun l hl => hpos l (List.mem_cons_of_mem _ hl)
    by_cases hc : h.cols > 1
    · have hw : (goRepeat "  " h.indent ++ h.str1).length = 2 * h.indent + h.str1.length := by
        rw [goString_length_append, goRepeat_length]
        have h2 : ("  " : String).length = 2 := rfl
        rw [h2]; omega
      have hpos0 : 0 < 2 * h.indent + h.str1.length := hpos h (List.mem_cons_self _ _) hc
      have htw : twoColWidths (h :: t) =
          (2 * h.indent + h.str1.length) :: twoColWidths t := by
        simp [twoColWidths, List.filter_cons, hc]
      rw [riverLoop]
      simp only [hw, if_pos hc, htw, List.map_cons, List.foldl_cons]
      rw [if_pos (show 2 * h.indent + h.str1.length > 0 from hpos0)]
      by_cases hbig : 2 * h.indent + h.str1.length + riverSpaces > maxRiver
      · rw [if_pos hbig]
        have h2 := le_foldl_max ((twoColWidths t).map (fun w => w + riverSpaces))
          (Nat.max r (2 * h.indent + h.str1.length + riverSpaces))
        have h1 : 2 * h.indent + h.str1.length + riverSpaces ≤
            Nat.max r (2 * h.indent + h.str1.length + riverSpaces) := Nat.le_max_right _ _
        exact (nat_min_eq_left (by omega)).symm
      · rw [if_neg hbig]
        push_neg at hbig
        by_cases hgt : 2 * h.indent + h.str1.length + riverSpaces > r
        · rw [if_pos hgt]
          rw [riverLoop_acc t (2 * h.indent + h.str1.length + riverSpaces) hpos' hbig]
          rw [nat_max_eq_right (le_of_lt hgt)]
        · rw [if_neg hgt]
          push_neg at hgt
          rw [riverLoop_acc t r hpos' hr, nat_max_eq_left hgt]
    · have htw : twoColWidths (h :: t) = twoColWidths t := by
        simp [twoColWidths, List.filter_cons, hc]
      rw [riverLoop]
      simp only [if_neg hc, htw]
      exact riverLoop_acc t r hpos' hr

theorem riverLoop_formula (queue : List HelpLine)
    (hpos : ∀ l ∈ queue, 1 < l.cols → 0 < 2 * l.indent + l.str1.length)
    (hne : ∃ l ∈ queue, 1 < l.cols) :
    riverLoop queue 0 = Nat.min maxRiver (listMax (twoColWidths queue) + riverSpaces) := by
  rw [riverLoop_acc queue 0 hpos (Nat.zero_le _)]
  congr 1
  obtain ⟨l, hl, hcl⟩ := hne
  have hmem : (2 * l.indent + l.str1.length) ∈ twoColWidths queue :=
    List.mem_map_of_mem _ (List.mem_filter.2 ⟨hl, by simp [hcl]⟩)
  obtain ⟨x, xs, hx⟩ := List.exists_cons_of_ne_nil (List.ne_nil_of_mem hmem)
  rw [hx]
  simp only [List.map_cons, List.foldl_cons, listMax]
  rw [nat_max_eq_right (Nat.zero_le _), nat_max_eq_right (Nat.zero_le _)]
  exact foldl_max_map_add riverSpaces xs x

/-- A physical output line of indentedPrint for the column-one text `arg`
and river column `river` either is `arg` alone, or blank, or continues
`arg` with padding up to the river, or is a continuation line indented to
the river: in every case any description text on the line starts exactly
at column `river`. -/
def startsAtColumn (arg : String) (river : Nat) (l : String) : Prop :=
  l = arg ∨ l = "" ∨
  (∃ seg, l = arg ++ goRepeat " " (river - arg.length) ++ seg ∧ arg.length < river) ∨
  (∃ seg, l = goRepeat " " river ++ seg)

/-- Printer-state invariant: the open line is either closed (column 0) or
exactly the column-one text `arg`, sitting left of the river. -/
def goodPS (arg : String) (river : Nat) (st : PrintState) : Prop :=
  (st.pending = "" ∧ st.column = 0) ∨
  (st.pending = arg ∧ st.column = arg.length ∧ arg.length < river)

theorem printSegmentLoop_ok (arg : String) (river wrap : Nat) :
    ∀ (fuel : Nat) (fullLine : String) (st : PrintState),
    (∀ l ∈ st.lines, startsAtColumn arg river l) → goodPS arg river st →
    (∀ l ∈ (printSegmentLoop river wrap fuel fullLine st).lines, startsAtColumn arg river l) ∧
      goodPS arg river (printSegmentLoop river wrap fuel fullLine st) := by
  intro fuel
  induction fuel with
  | zero => intro fullLine st hl hg; exact ⟨hl, hg⟩
  | succ fuel ih =>
    intro fullLine st hl hg
    obtain ⟨sl, sp, sc⟩ := st
    dsimp only at hl hg ⊢
    rw [printSegmentLoop]
    by_cases h0 : fullLine.length = 0
    · rw [if_pos h0]; exact ⟨hl, hg⟩
    · rw [if_neg h0]
      by_cases hcz : sc = 0
      · subst hcz
        rw [if_pos rfl]
        dsimp only
        by_cases hrpos : 0 < river
        · rw [if_pos hrpos]
          dsimp only
          refine ih _ _ ?_ (Or.inl ⟨rfl, rfl⟩)
          intro l hlm
          rcases List.mem_append.1 hlm with hold | hnew
          · exact hl l hold
          · rw [List.mem_singleton] at hnew
            subst hnew
            exact Or.inr (Or.inr (Or.inr ⟨_, rfl⟩))
        · rw [if_neg hrpos]
          dsimp only
          have hr0 : river = 0 := by omega
          subst hr0
          refine ih _ _ ?_ (Or.inl ⟨rfl, rfl⟩)
          intro l hlm
          rcases List.mem_append.1 hlm with hold | hnew
          · exact hl l hold
          · rw [List.mem_singleton] at hnew
            subst hnew
            exact Or.inr (Or.inr (Or.inr ⟨_, rfl⟩))
      · rcases hg with ⟨hp, hc2⟩ | ⟨hp, hc2, hlt⟩
        · exact absurd hc2 hcz
        · dsimp only at hp hc2
          subst hp
          subst hc2
          rw [if_neg hcz]
          dsimp only
          rw [if_pos hlt]
          dsimp only
          refine ih _ _ ?_ (Or.inl ⟨rfl, rfl⟩)
          intro l hlm
          rcases List.mem_append.1 hlm with hold | hnew
          · exact hl l hold
          · rw [List.mem_singleton] at hnew
            subst hnew
            exact Or.inr (Or.inr (Or.inl ⟨_, rfl, hlt⟩))

theorem processTextLine_ok (arg : String) (river wrap : Nat) (st : PrintState) (line : String)
    (hl : ∀ l ∈ st.lines, startsAtColumn arg river l) (hg : goodPS arg river st) :
    (∀ l ∈ (processTextLine river wrap st line).lines, startsAtColumn arg river l) ∧
      goodPS arg river (processTextLine river wrap st line) := by
  rw [processTextLine]
  by_cases hb : (goTrimSpace line).length = 0
  · rw [if_pos hb]
    by_cases hcp : st.column > 0
    · rw [if_pos hcp]
      refine ⟨?_, Or.inl ⟨rfl, rfl⟩⟩
      intro l hlm
      rcases List.mem_append.1 hlm with hold | hnew
      · exact hl l hold
      · rw [List.mem_singleton] at hnew
        subst hnew
        rcases hg with ⟨hp, hc⟩ | ⟨hp, _, _⟩
        · rw [hp]; exact Or.inr (Or.inl rfl)
        · rw [hp]; exact Or.inl rfl
    · rw [if_neg hcp]
      refine ⟨?_, ?_⟩
      · intro l hlm
        rcases List.mem_append.1 hlm with hold | hnew
        · exact hl l hold
        · rw [List.mem_singleton] at hnew
          subst hnew
          exact Or.inr (Or.inl rfl)
      · rcases hg with ⟨hp, hc⟩ | ⟨hp, hc, hlt⟩
        · exact Or.inl ⟨hp, hc⟩
        · exact Or.inr ⟨hp, hc, hlt⟩
  · rw [if_neg hb]
    exact printSegmentLoop_ok arg river wrap (line.length + 1) line st hl hg

theorem foldl_processTextLine_ok (arg : String) (river wrap : Nat) :
    ∀ (ls : List String) (st : PrintState),
    (∀ l ∈ st.lines, startsAtColumn arg river l) → goodPS arg river st →
    (∀ l ∈ (ls.foldl (processTextLine river wrap) st).lines, startsAtColumn arg river l) ∧
      goodPS arg river (ls.foldl (processTextLine river wrap) st)
  | [], st => fun hl hg => ⟨hl, hg⟩
  | x :: t, st => fun hl hg => by
    rw [List.foldl_cons]
    have h1 := processTextLine_ok arg river wrap st x hl hg
    exact foldl_processTextLine_ok arg river wrap t _ h1.1 h1.2

/-- Every physical line printed by indentedPrint for column-one text `arg`
and river `river` starts any description content exactly at the river
column. -/
theorem indentedPrint_alignment (arg : String) (river wrap : Nat) (text : String) :
    ∀ l ∈ indentedPrint arg river wrap text, startsAtColumn arg river l := by
  rw [indentedPrint]
  by_cases hat : arg.length > 0 ∧ text.length = 0
  · rw [if_pos hat]
    rw [if_pos hat.1, if_pos hat.2]
    intro l hlm
    rw [List.mem_singleton] at hlm
    subst hlm
    exact Or.inl rfl
  · rw [if_neg hat]
    by_cases ha : arg.length > 0
    · have ht : ¬ text.length = 0 := fun h => hat ⟨ha, h⟩
      rw [if_pos ha, if_neg ht]
      by_cases hge : arg.length ≥ river
      · rw [if_pos hge]
        exact (foldl_processTextLine_ok arg river wrap _ _
          (by
            intro l hlm
            rw [List.mem_singleton] at hlm
            subst hlm
            exact Or.inl rfl)
          (Or.inl ⟨rfl, rfl⟩)).1
      · rw [if_neg hge]
        exact (foldl_processTextLine_ok arg river wrap _ _
          (by intro l hlm; exact absurd hlm (List.not_mem_nil l))
          (Or.inr ⟨rfl, rfl, by omega⟩)).1
    · rw [if_neg ha]
      exact (foldl_processTextLine_ok arg river wrap _ _
        (by intro l hlm; exact absurd hlm (List.not_mem_nil l))
        (Or.inl ⟨rfl, rfl⟩)).1

/-- Classification of one physical output line of the second render pass:
it comes from some queued help line, either verbatim (one-column) or
aligned to the river (two-column). -/
def helpLineOut (river : Nat) (queue : List HelpLine) (l : String) : Prop :=
  ∃ h ∈ queue,
    (h.cols = 1 ∧ l = goRepeat "  " h.indent ++ h.str1) ∨
    (¬ h.cols = 1 ∧ startsAtColumn (goRepeat "  " h.indent ++ h.str1) river l)

theorem helpRender_foldl_ok (river : Nat) (queue : List HelpLine) :
    ∀ (q : List HelpLine) (acc : List String),
    (∀ h ∈ q, h ∈ queue) →
    (∀ l ∈ acc, helpLineOut river queue l) →
    ∀ l ∈ q.foldl
        (fun lines help =>
          let argText := goRepeat "  " help.indent ++ help.str1
          if help.cols = 1 then lines ++ [argText]
          else lines ++ indentedPrint argText river maxLineWidth help.str2)
        acc,
      helpLineOut river queue l
  | [], acc => fun _ hacc => hacc
  | h :: t, acc => fun hq hacc => by
    rw [List.foldl_cons]
    refine helpRender_foldl_ok river queue t _ (fun x hx => hq x (List.mem_cons_of_mem _ hx)) ?_
    have hh : h ∈ queue := hq h (List.mem_cons_self _ _)
    by_cases hc : h.cols = 1
    · rw [if_pos hc]
      intro l hlm
      rcases List.mem_append.1 hlm with hold | hnew
      · exact hacc l hold
      · rw [List.mem_singleton] at hnew
        subst hnew
        exact ⟨h, hh, Or.inl ⟨hc, rfl⟩⟩
    · rw [if_neg hc]
      intro l hlm
      rcases List.mem_append.1 hlm with hold | hnew
      · exact hacc l hold
      · exact ⟨h, hh, Or.inr ⟨hc, indentedPrint_alignment _ _ _ _ l hnew⟩⟩

theorem helpRenderLines_classified (queue : List HelpLine) :
    ∀ l ∈ helpRenderLines queue, helpLineOut (riverLoop queue 0) queue l := by
  rw [helpRenderLines]
  exact helpRender_foldl_ok (riverLoop queue 0) queue queue []
    (fun _ hx => hx) (fun l hl => absurd hl (List.not_mem_nil l))

/-- A two-command help queue with one long option name, as queued by
helpPrintCols (all two-column lines have positive width). -/
def qC7 : List HelpLine :=
  [{ str1 := "first", str2 := "first command", indent := 1, cols := 2 },
   { str1 := "-longoptionname", str2 := "the long option", indent := 2, cols := 2 }]

/-- C7: the renderer's first pass computes the river — the column where
descriptions start — as min(30, max over the two-column queued lines of
(2*indent + width of the column-one text) + 2) (for queues where those
lines exist and have positive width, as helpPrintCols guarantees), and in
the second pass every physical output line is either a one-column line
printed verbatim or a line of a two-column entry whose description
content starts exactly at the river column (first line padded to the
river, wrapped continuation lines indented to the river). -/
theorem c7_two_pass_layout :
    (∀ queue : List HelpLine,
        (∀ l ∈ queue, 1 < l.cols → 0 < 2 * l.indent + l.str1.length) →
        (∃ l ∈ queue, 1 < l.cols) →
        riverLoop queue 0 = Nat.min maxRiver (listMax (twoColWidths queue) + riverSpaces)) ∧
    (∀ (queue : List HelpLine), ∀ l ∈ helpRenderLines queue,
        helpLineOut (riverLoop queue 0) queue l) :=
  ⟨riverLoop_formula, helpRenderLines_classified⟩

/-- Witness for C7 at a concrete queue: the river evaluates as the
formula says (to 21 = 4 + 15 + 2), and a concrete rendered line is
classified as river-aligned. -/
theorem c7_witness :
    riverLoop qC7 0 = Nat.min maxRiver (listMax (twoColWidths qC7) + riverSpaces) ∧
    riverLoop qC7 0 = 21 ∧
    helpLineOut (riverLoop qC7 0) qC7 "    -longoptionname  the long option" :=
  ⟨c7_two_pass_layout.1 qC7 (by decide)
      ⟨{ str1 := "first", str2 := "first command", indent := 1, cols := 2 },
        List.mem_cons_self _ _, by decide⟩,
    rfl,
    c7_two_pass_layout.2 qC7 "    -longoptionname  the long option" (by
      rw [show helpRenderLines qC7 =
        ["  first              first command", "    -longoptionname  the long option"] from rfl]
      exact List.mem_cons_of_mem _ (List.mem_cons_self _ _))⟩
